import Mathlib

/-!
Verification of the Schema/Dataset binding layer of the evo-python-sdk
repository against its natural-language specification.

The development shallowly embeds the relevant Python source:

* `evo.jmespath` (evo-sdk-common): the restricted JMESPath assignment
  interpreter (`ParsedResult.assign`, `_AssignInterpreter`,
  `_AssignmentTargetDictEntry`, `_AssignmentTargetListEntry`).
* `evo.objects.helpers.registry`: `DatasetAdapterRegistry.resolve_version_adapter`.
* `evo.objects.helpers.loaders`: `_split_feedback`, `ValuesLoader.download_dataframe`.
* `evo.objects.helpers.attributes`: `Attribute`, `Attributes`.
* `evo.objects.helpers.store`: `ValuesStore`, `Dataset.set_dataframe`.
* `evo.objects.typed._model`: `_set_property_value`.

Python dicts are modelled as insertion-ordered association lists, Python
lists as Lean lists, and in-place mutation by functional update.  The
aliasing mutation performed by the assignment interpreter (it holds direct
references to sub-containers of the document) is modelled by pairing each
container with a rebuild continuation that reinserts an updated container
into the whole document; documents are trees (no aliasing), so this is
faithful.  Python exceptions are modelled by explicit error values that
record the exception class, so that which exception family an error
belongs to is part of the model.
-/

namespace EvoSpec

namespace JP

/-- A JSON-like document value: the data `evo.jmespath` operates on. -/
inductive JVal where
  | null : JVal
  | boolean (b : Bool) : JVal
  | int (n : Int) : JVal
  | str (s : String) : JVal
  | obj (fields : List (String × JVal)) : JVal
  | arr (items : List JVal) : JVal

/-- Python dict read, `d[k]` / `d.get(k)`: first matching key. -/
def getKey : List (String × JVal) → String → Option JVal
  | [], _ => none
  | (k, v) :: rest, key => if k = key then some v else getKey rest key

/-- Python dict write, `d[k] = v`: replace in place if the key is present
(keeping its position), append otherwise. -/
def setKey : List (String × JVal) → String → JVal → List (String × JVal)
  | [], key, v => [(key, v)]
  | (k, w) :: rest, key, v =>
      if k = key then (key, v) :: rest else (k, w) :: setKey rest key v

/-- Python dict read with a default, `d.get(k, dflt)`. -/
def getKeyD (fs : List (String × JVal)) (k : String) (dflt : JVal) : JVal :=
  (getKey fs k).getD dflt

/-- Python list index resolution: `l[i]` accepts `-len l <= i < len l`,
with negative indices counting from the end; anything else raises
IndexError (modelled as `none`). -/
def pyIdx (i : Int) (len : Nat) : Option Nat :=
  if 0 ≤ i ∧ i < (len : Int) then some i.toNat
  else if -(len : Int) ≤ i ∧ i < 0 then some (len - (-i).toNat)
  else none

/-- Python list read `l[i]` with Python index semantics. -/
def pyListGet {α : Type} (l : List α) (i : Int) : Option α :=
  match pyIdx i l.length with
  | some j => l[j]?
  | none => none

/-- The value threaded through `_AssignInterpreter.visit`: either the raw
document (the initial value), Python `None`, an
`_AssignmentTargetDictEntry` (a dict plus a pending key, with the rebuild
continuation standing for the Python alias into the document), or an
`_AssignmentTargetListEntry` (a list plus a pending index). -/
inductive Target where
  | root
  | pyNone
  | dictEntry (rebuild : JVal → JVal) (fields : List (String × JVal)) (key : String)
  | listEntry (rebuild : JVal → JVal) (items : List JVal) (index : Int)

/-- Result of `_AssignInterpreter._evaluate_value`: either an evaluated
value together with its location (rebuild continuation), or Python None. -/
inductive EvalRes where
  | val (v : JVal) (rebuild : JVal → JVal)
  | pynone

/-- Model of `_AssignInterpreter._evaluate_value` together with the lazy
`.value` properties of the two target-entry classes.  Evaluating a dict
entry performs `obj.setdefault(key, {})`, which mutates the document when
the key is absent (the returned document reflects that); evaluating a list
entry returns Python None on an out-of-range index (IndexError is caught
in `_AssignmentTargetListEntry.value`). -/
def evalTarget (doc : JVal) : Target → JVal × EvalRes
  | .root => (doc, .val doc id)
  | .pyNone => (doc, .pynone)
  | .dictEntry r fs k =>
      match getKey fs k with
      | some v => (doc, .val v (fun x => r (.obj (setKey fs k x))))
      | none =>
          (r (.obj (setKey fs k (.obj []))),
            .val (.obj [])
              (fun x => r (.obj (setKey (setKey fs k (.obj [])) k x))))
  | .listEntry r items i =>
      match pyIdx i items.length with
      | some j => (doc, .val (items.getD j .null) (fun x => r (.arr (items.set j x))))
      | none => (doc, .pynone)

/-- Model of `_AssignInterpreter.visit_field`: evaluate the incoming
value; if it is not a dict the result is Python None, otherwise a new
dict entry for the field name. -/
def visitField (name : String) (doc : JVal) (t : Target) : JVal × Target :=
  match evalTarget doc t with
  | (d, .pynone) => (d, .pyNone)
  | (d, .val (.obj fs) r) => (d, .dictEntry r fs name)
  | (d, .val _ _) => (d, .pyNone)

/-- Model of `_AssignInterpreter.visit_index`: evaluate the incoming
value; if it is not a list the result is Python None, otherwise a new
list entry for the (still unchecked) index. -/
def visitIndex (i : Int) (doc : JVal) (t : Target) : JVal × Target :=
  match evalTarget doc t with
  | (d, .pynone) => (d, .pyNone)
  | (d, .val (.arr items) r) => (d, .listEntry r items i)
  | (d, .val _ _) => (d, .pyNone)

/-- Abstract syntax of compiled JMESPath expressions as seen by
`_AssignInterpreter`: the node types it implements (field, index,
subexpression, index_expression) and `other` for every remaining node
type of the upstream grammar (filters, projections, pipes, functions,
slices, ...), which hit `default_visit`. -/
inductive Node where
  | field (name : String)
  | index (i : Int)
  | subexpression (left right : Node)
  | index_expression (left right : Node)
  | other (ty : String)

/-- The errors an assignment can end in, tagged by Python exception class.
`notImplemented` is the builtin NotImplementedError raised by
`default_visit`; `indexError` is the builtin IndexError escaping from the
final `result.obj[result.index] = new_value`; the other two are
JMESPathError values raised by `ParsedResult.assign` itself. -/
inductive AErr where
  | notImplemented (ty : String)
  | invalidTarget
  | listIndexOutOfRange
  | indexError
  deriving DecidableEq

/-- Whether the error value is an instance of the jmespath error family
(`JMESPathError`).  NotImplementedError and IndexError are Python
builtins unrelated to that family. -/
def AErr.isJMESPathError : AErr → Bool
  | .invalidTarget => true
  | .listIndexOutOfRange => true
  | .notImplemented _ => false
  | .indexError => false

/-- Model of `Visitor.visit` dispatch for `_AssignInterpreter`: field and
index nodes have handlers; subexpression and index_expression nodes
(always binary in the upstream parser's AST) visit their two children in
order via `_visit_sub_or_index_expression`, threading the intermediate
value; every other node type raises NotImplementedError(node["type"]) via
`default_visit`.  Errors carry the document as mutated so far. -/
def visit : Node → JVal × Target → Except (JVal × AErr) (JVal × Target)
  | .field name, (doc, t) => .ok (visitField name doc t)
  | .index i, (doc, t) => .ok (visitIndex i doc t)
  | .subexpression l r, st =>
      match visit l st with
      | .ok st' => visit r st'
      | .error e => .error e
  | .index_expression l r, st =>
      match visit l st with
      | .ok st' => visit r st'
      | .error e => .error e
  | .other ty, (doc, _) => .error (doc, .notImplemented ty)

/-- Model of the tail of `ParsedResult.assign` after the interpreter has
run: a dict entry receives the new value directly; a list entry performs
`result.obj[result.index] = new_value`, which on an out-of-range index
raises IndexError — the source's `except KeyError` clause can never match
a list index assignment, so the IndexError escapes (it is not converted
to the JMESPathError "List index out of range"); any other result raises
JMESPathError("Invalid assignment target"). -/
def assignFinish (st : JVal × Target) (new_value : JVal) : JVal × Option AErr :=
  match st with
  | (_, .dictEntry r fs k) => (r (.obj (setKey fs k new_value)), none)
  | (d, .listEntry r items i) =>
      match pyIdx i items.length with
      | some j => (r (.arr (items.set j new_value)), none)
      | none => (d, some .indexError)
  | (d, .root) => (d, some .invalidTarget)
  | (d, .pyNone) => (d, some .invalidTarget)

/-- Model of `ParsedResult.assign`: run `_AssignInterpreter` on the parsed
expression against the document, then perform the final assignment.
Returns the document (as mutated so far) and the error, if any. -/
def assignNode (n : Node) (doc new_value : JVal) : JVal × Option AErr :=
  match visit n (doc, .root) with
  | .error (d, e) => (d, some e)
  | .ok st => assignFinish st new_value

/-- The compiled form of a pure field chain such as a.b.c: the upstream
parser nests subexpressions left-associatively,
sub(sub(field a, field b), field c). -/
def fieldChain (k : String) (ks : List String) : Node :=
  ks.foldl (fun acc k2 => .subexpression acc (.field k2)) (.field k)

/-- The compiled AST of the filter expression a[?x>1]: a filter_projection
node, which `_AssignInterpreter` does not implement. -/
def filterExprNode : Node := .other "filter_projection"

/-- The compiled AST of a.b.length(@): a subexpression whose right child
is a function_expression node, which `_AssignInterpreter` does not
implement. -/
def chainThenFunctionNode : Node :=
  .subexpression (.subexpression (.field "a") (.field "b")) (.other "function_expression")

/-- C3 (evaluation at the failing inputs): assigning through the filter
expression a[?x>1] fails with NotImplementedError("filter_projection") —
a Python builtin that is not in the JMESPathError family, contradicting
the docstring of `ParsedResult.assign`, which promises a JMESPathError for
unsupported expression forms — although for this input the document is
indeed left unchanged.  Moreover the no-mutation part of the claim fails
in general: assigning through a.b.length(@) on the empty document
auto-creates the intermediate map at "a" before `default_visit` raises,
so the document has been mutated when the failure surfaces. -/
theorem assign_unsupported_target_behaviour :
    assignNode filterExprNode (.obj []) (.int 5)
        = (.obj [], some (.notImplemented "filter_projection"))
      ∧ AErr.isJMESPathError (.notImplemented "filter_projection") = false
      ∧ assignNode chainThenFunctionNode (.obj []) (.int 5)
        = (.obj [("a", .obj [])], some (.notImplemented "function_expression")) :=
  ⟨rfl, rfl, rfl⟩

/-- The compiled AST of a[5]: an index_expression with a field child and
an index child. -/
def finalIndexNode : Node := .index_expression (.field "a") (.index 5)

/-- The compiled AST of a[5].b. -/
def midIndexNode : Node :=
  .subexpression (.index_expression (.field "a") (.index 5)) (.field "b")

/-- C4 (evaluation at the failing input): on the document with "a" bound
to the one-element list [1], assigning through a[5] — a final index step
that is out of range — fails with a builtin IndexError escaping the
engine (the source catches KeyError, which a list index assignment never
raises) rather than with an error of the JMESPathError family; the
sequence is not extended.  An out-of-range index at a non-final step, by
contrast, does fail inside the family, with
JMESPathError("Invalid assignment target"). -/
theorem assign_index_out_of_range_behaviour :
    assignNode finalIndexNode (.obj [("a", .arr [.int 1])]) (.int 9)
        = (.obj [("a", .arr [.int 1])], some .indexError)
      ∧ AErr.isJMESPathError .indexError = false
      ∧ assignNode midIndexNode (.obj [("a", .arr [.int 1])]) (.int 9)
        = (.obj [("a", .arr [.int 1])], some .invalidTarget)
      ∧ AErr.isJMESPathError .invalidTarget = true :=
  ⟨rfl, rfl, rfl, rfl⟩

theorem setKey_setKey (fs : List (String × JVal)) (k : String) (v w : JVal) :
    setKey (setKey fs k v) k w = setKey fs k w := by
  induction fs with
  | nil => simp [setKey]
  | cons p rest ih =>
      by_cases h : p.1 = k
      · simp [setKey, h]
      · simp [setKey, h, ih]

theorem getKey_setKey_ne (fs : List (String × JVal)) (k k2 : String) (v : JVal)
    (h : k2 ≠ k) : getKey (setKey fs k v) k2 = getKey fs k2 := by
  induction fs with
  | nil => simp [setKey, getKey, Ne.symm h]
  | cons p rest ih =>
      by_cases hp : p.1 = k
      · simp [setKey, getKey, hp, Ne.symm h, ih]
      · simp [setKey, getKey, hp, ih]

/-- Reference description of what assignment through a pure field chain
does, written directly from the claim: descend along the chain, reading
each present intermediate map and substituting an empty map for each
missing one, and store the new value at the final key of the innermost
map, replacing whatever was there and leaving every sibling key in every
map along the way as it was (a `setKey` at one key). -/
def storeChain (k : String) (ks : List String) (v : JVal) (new_value : JVal) : JVal :=
  match v with
  | .obj fs =>
      match ks with
      | [] => .obj (setKey fs k new_value)
      | k2 :: rest => .obj (setKey fs k (storeChain k2 rest (getKeyD fs k (.obj [])) new_value))
  | other => other

/-- Guard for the claim: the document is a map and descending the chain
only ever meets maps (each present intermediate value is a map; missing
intermediates count as the empty map the engine would create). -/
def chainOKb (k : String) (ks : List String) (v : JVal) : Bool :=
  match v with
  | .obj fs =>
      match ks with
      | [] => true
      | k2 :: rest => chainOKb k2 rest (getKeyD fs k (.obj []))
  | _ => false

theorem chainOKb_is_obj {k : String} {ks : List String} {v : JVal}
    (h : chainOKb k ks v = true) : ∃ fs, v = .obj fs := by
  cases v <;> simp [chainOKb] at h ⊢

/-- Folding `visit_field` over the remaining keys of a chain. -/
def visitFields (ks : List String) (st : JVal × Target) : JVal × Target :=
  ks.foldl (fun s k2 => visitField k2 s.1 s.2) st

theorem visit_fieldChain (ks : List String) (k : String) (doc : JVal) (t : Target) :
    visit (fieldChain k ks) (doc, t) = .ok (visitFields ks (visitField k doc t)) := by
  induction ks using List.reverseRecOn generalizing k doc t with
  | nil => rfl
  | append_singleton ks k2 ih =>
      have hchain : fieldChain k (ks ++ [k2]) = .subexpression (fieldChain k ks) (.field k2) := by
        simp [fieldChain, List.foldl_append]
      rw [hchain]
      show (match visit (fieldChain k ks) (doc, t) with
            | .ok st' => visit (.field k2) st'
            | .error e => .error e) = _
      rw [ih]
      simp [visit, visitFields, List.foldl_append]

/-- Core lemma for C2: starting from a dict-entry target whose container
holds the fields `fs` (located by the rebuild continuation `r`), visiting
the remaining field steps and then performing the final assignment
produces exactly the chain-store result, independently of the document
value threaded alongside. -/
theorem assignFinish_visitFields (ks : List String) :
    ∀ (doc : JVal) (r : JVal → JVal) (fs : List (String × JVal)) (k : String) (v : JVal),
    chainOKb k ks (.obj fs) = true →
    assignFinish (visitFields ks (doc, .dictEntry r fs k)) v
      = (r (storeChain k ks (.obj fs) v), none) := by
  induction ks with
  | nil =>
      intro doc r fs k v _
      rfl
  | cons k2 rest ih =>
      intro doc r fs k v h
      have h2 : chainOKb k2 rest (getKeyD fs k (.obj [])) = true := by
        simpa [chainOKb] using h
      have hfold : visitFields (k2 :: rest) (doc, .dictEntry r fs k)
          = visitFields rest (visitField k2 doc (.dictEntry r fs k)) := rfl
      rw [hfold]
      cases hg : getKey fs k with
      | some c =>
          obtain ⟨cfs, rfl⟩ : ∃ cfs, c = .obj cfs :=
            @chainOKb_is_obj k2 rest c (by simpa [getKeyD, hg] using h2)
          have hvf : visitField k2 doc (.dictEntry r fs k)
              = (doc, .dictEntry (fun x => r (.obj (setKey fs k x))) cfs k2) := by
            simp [visitField, evalTarget, hg]
          rw [hvf, ih doc _ cfs k2 v (by simpa [getKeyD, hg] using h2)]
          simp [storeChain, getKeyD, hg]
      | none =>
          have hvf : visitField k2 doc (.dictEntry r fs k)
              = (r (.obj (setKey fs k (.obj []))),
                 .dictEntry (fun x => r (.obj (setKey (setKey fs k (.obj [])) k x))) [] k2) := by
            simp [visitField, evalTarget, hg]
          rw [hvf, ih _ _ [] k2 v (by simpa [getKeyD, hg] using h2)]
          simp [storeChain, getKeyD, hg, setKey_setKey]

/-- C2: assignment through a pure field chain on a map document, in the
cases where every present intermediate value is a map, succeeds and
equals the chain-store reference function: an empty map is created at
each missing intermediate field, the final step stores the new value
directly (replacing any previous value), and `setKey` leaves every
sibling key untouched.  The two concrete conjuncts instantiate the
claim's examples: assigning 5 at a.b.c in the empty document produces the
fully nested result, and re-assigning 9 in a document that also holds a
sibling key under a.b replaces only the value at c. -/
theorem assign_field_chain_autocreates :
    (∀ (k : String) (ks : List String) (doc v : JVal),
       chainOKb k ks doc = true →
       assignNode (fieldChain k ks) doc v = (storeChain k ks doc v, none))
    ∧ (∀ (fs : List (String × JVal)) (k k2 : String) (v : JVal), k2 ≠ k →
       getKey (setKey fs k v) k2 = getKey fs k2)
    ∧ assignNode (fieldChain "a" ["b", "c"]) (.obj []) (.int 5)
        = (.obj [("a", .obj [("b", .obj [("c", .int 5)])])], none)
    ∧ assignNode (fieldChain "a" ["b", "c"])
        (.obj [("a", .obj [("b", .obj [("c", .int 5), ("d", .int 7)])])]) (.int 9)
        = (.obj [("a", .obj [("b", .obj [("c", .int 9), ("d", .int 7)])])], none) := by
  refine ⟨?_, getKey_setKey_ne, rfl, rfl⟩
  intro k ks doc v h
  obtain ⟨fs, rfl⟩ := chainOKb_is_obj h
  have hroot : visitField k (.obj fs) .root = (.obj fs, .dictEntry id fs k) := rfl
  calc assignNode (fieldChain k ks) (.obj fs) v
      = assignFinish (visitFields ks (.obj fs, .dictEntry id fs k)) v := by
        rw [assignNode, visit_fieldChain, hroot]
    _ = (storeChain k ks (.obj fs) v, none) :=
        assignFinish_visitFields ks (.obj fs) id fs k v h

/-- Witness for C2 at concrete inputs: the chain a.b on the empty
document satisfies the guard, and the theorem evaluates there; the
sibling-preservation conjunct is exercised at a concrete distinct key. -/
theorem assign_field_chain_autocreates_witness :
    (chainOKb "a" ["b"] (.obj []) = true
      ∧ assignNode (fieldChain "a" ["b"]) (.obj []) (.int 3)
          = (storeChain "a" ["b"] (.obj []) (.int 3), none))
    ∧ ("x" ≠ "a"
      ∧ getKey (setKey [] "a" (.int 1)) "x" = getKey [] "x") :=
  ⟨⟨rfl, assign_field_chain_autocreates.1 "a" ["b"] (.obj []) (.int 3) rfl⟩,
   ⟨by decide, assign_field_chain_autocreates.2.1 [] "a" "x" (.int 1) (by decide)⟩⟩

end JP

namespace Registry

/-- Modelled from the spec: a schema version is a (major, minor, patch)
triple, totally ordered lexicographically (the SchemaVersion class itself
comes from the evo.objects package, whose source is not under src/). -/
structure SchemaVersion where
  major : Nat
  minor : Nat
  patch : Nat
  deriving DecidableEq

/-- Lexicographic less-or-equal on schema versions. -/
def vle (a b : SchemaVersion) : Bool :=
  decide (a.major < b.major) ||
    (decide (a.major = b.major) &&
      (decide (a.minor < b.minor) ||
        (decide (a.minor = b.minor) && decide (a.patch ≤ b.patch))))

/-- Lexicographic strict order on schema versions. -/
def vlt (a b : SchemaVersion) : Bool := !(vle b a)

/-- The less-or-equal comparison as a relation, for sorting. -/
def vleP (a b : SchemaVersion) : Prop := vle a b = true

instance : DecidableRel vleP := fun a b => inferInstanceAs (Decidable (vle a b = true))

instance : IsTotal SchemaVersion vleP :=
  ⟨by intro a b; simp only [vleP, vle, Bool.or_eq_true, Bool.and_eq_true, decide_eq_true_eq]; omega⟩

instance : IsTrans SchemaVersion vleP :=
  ⟨by
    intro a b c hab hbc
    simp only [vleP, vle, Bool.or_eq_true, Bool.and_eq_true, decide_eq_true_eq] at hab hbc ⊢
    omega⟩

theorem vle_major {a b : SchemaVersion} (h : vle a b = true) : a.major ≤ b.major := by
  simp only [vle, Bool.or_eq_true, Bool.and_eq_true, decide_eq_true_eq] at h
  omega

theorem vle_of_not_vlt {a b : SchemaVersion} (h : vlt a b = false) : vle b a = true := by
  simpa [vlt] using h

/-- A registry instance for one classification: the classification string
and the version-to-adapter dictionary (`DatasetAdapterRegistry.__init__`). -/
structure DatasetAdapterRegistry (C : Type) where
  object_type : String
  adapters : List (SchemaVersion × C)

/-- Python dict read `self._adapters[candidate]` on the version map. -/
def lookupVersion {C : Type} : List (SchemaVersion × C) → SchemaVersion → Option C
  | [], _ => none
  | (v, c) :: rest, ver => if v = ver then some c else lookupVersion rest ver

/-- The error kinds `resolve_version_adapter` can raise (both surface as
ValueError in Python; the kinds are distinguished by their message). -/
inductive RegistryError where
  | classificationMismatch
  | noCompatibleVersion
  deriving DecidableEq

/-- Modelled from the Python stdlib semantics of bisect.bisect_left
(external to the repository): on a sorted list, the leftmost insertion
index of the target, i.e. the length of the prefix of elements strictly
below the target. -/
def bisect_left (l : List SchemaVersion) (x : SchemaVersion) : Nat :=
  (l.takeWhile (fun v => vlt v x)).length

/-- One iteration of the candidate loop in `resolve_version_adapter`:
index into the sorted version list with Python index semantics (negative
indices wrap; IndexError is ignored by the loop), and return the
registered adapter when the candidate's major version matches the
target's. -/
def tryCandidate {C : Type} (reg : DatasetAdapterRegistry C)
    (sorted_versions : List SchemaVersion) (version : SchemaVersion) (i : Int) : Option C :=
  match JP.pyListGet sorted_versions i with
  | some candidate =>
      if candidate.major = version.major then lookupVersion reg.adapters candidate else none
  | none => none

/-- Model of `DatasetAdapterRegistry.resolve_version_adapter`: check the
classification, sort the registered versions, locate the lower bound of
the target with bisect_left, then try the candidate at that index
followed by the one at the preceding index (which in Python wraps to the
last element when the lower bound is index 0). -/
def resolve_version_adapter {C : Type} (reg : DatasetAdapterRegistry C)
    (classification : String) (version : SchemaVersion) : Except RegistryError C :=
  if classification ≠ reg.object_type then .error .classificationMismatch
  else
    let sorted_versions := List.insertionSort vleP (reg.adapters.map Prod.fst)
    let left_idx := bisect_left sorted_versions version
    match tryCandidate reg sorted_versions version (left_idx : Int) with
    | some c => .ok c
    | none =>
        match tryCandidate reg sorted_versions version ((left_idx : Int) - 1) with
        | some c => .ok c
        | none => .error .noCompatibleVersion

/-- The claim's fallback candidate: the registered version immediately
preceding the lower-bound candidate in sorted order, accepted only when
its major version equals the target's. -/
def choosePred (below : List SchemaVersion) (version : SchemaVersion) : Option SchemaVersion :=
  match below.getLast? with
  | some p => if p.major = version.major then some p else none
  | none => none

/-- The claim's candidate selection: the smallest registered version
greater than or equal to the target when its major component matches the
target's, otherwise the version immediately preceding it in sorted order
when that one's major matches; nothing otherwise. -/
def chooseCompatible (below : List SchemaVersion) (geCand : Option SchemaVersion)
    (version : SchemaVersion) : Option SchemaVersion :=
  match geCand with
  | some c => if c.major = version.major then some c else choosePred below version
  | none => choosePred below version

/-- Resolution as worded by the claim and the spec: lower-bound search
over the sorted version set, candidate preference ≥-then-predecessor
under the major-version gate, NoCompatibleVersion otherwise. -/
def resolve_spec {C : Type} (reg : DatasetAdapterRegistry C)
    (classification : String) (version : SchemaVersion) : Except RegistryError C :=
  if classification ≠ reg.object_type then .error .classificationMismatch
  else
    let sorted_versions := List.insertionSort vleP (reg.adapters.map Prod.fst)
    let below := sorted_versions.takeWhile (fun v => vlt v version)
    let geCand := (sorted_versions.dropWhile (fun v => vlt v version)).head?
    match chooseCompatible below geCand version with
    | some c =>
        match lookupVersion reg.adapters c with
        | some cfg => .ok cfg
        | none => .error .noCompatibleVersion
    | none => .error .noCompatibleVersion

theorem pyListGet_natCast {α : Type} (l : List α) (n : Nat) :
    JP.pyListGet l (n : Int) = l[n]? := by
  unfold JP.pyListGet JP.pyIdx
  split_ifs with h1 h2
  · have hn : n < l.length := by omega
    simp
  · omega
  · have hn : l.length ≤ n := by omega
    simp [List.getElem?_eq_none hn]

theorem pyListGet_neg_one {α : Type} (l : List α) :
    JP.pyListGet l (-1 : Int) = l.getLast? := by
  unfold JP.pyListGet JP.pyIdx
  split_ifs with h1 h2
  · omega
  · have hl : 1 ≤ l.length := by omega
    have : ((-1 : Int)).toNat = 0 := rfl
    simp [this, List.getLast?_eq_getElem?]
  · have hl : l.length = 0 := by omega
    rw [List.length_eq_zero] at hl
    subst hl
    rfl

theorem head?_dropWhile_false {α : Type} (p : α → Bool) (l : List α) :
    ∀ {x : α}, (l.dropWhile p).head? = some x → p x = false := by
  induction l with
  | nil => intro x h; simp [List.dropWhile] at h
  | cons a rest ih =>
      intro x h
      rw [List.dropWhile_cons] at h
      by_cases ha : p a = true
      · exact ih (by simpa [ha] using h)
      · simp [ha] at h
        subst h
        simpa using ha

theorem getLast?_mem {α : Type} (l : List α) : ∀ {x : α}, l.getLast? = some x → x ∈ l := by
  induction l with
  | nil => intro x h; simp at h
  | cons a rest ih =>
      intro x h
      cases rest with
      | nil => simp at h; simp [h]
      | cons b r =>
          rw [List.getLast?_cons_cons] at h
          exact List.mem_cons_of_mem a (ih h)

theorem head?_mem {α : Type} {l : List α} {x : α} (h : l.head? = some x) : x ∈ l := by
  cases l <;> simp_all

theorem head?_none_nil {α : Type} {l : List α} (h : l.head? = none) : l = [] := by
  cases l <;> simp_all

theorem sorted_head_getLast {α : Type} {r : α → α → Prop} {l : List α} {a b : α}
    (hs : List.Sorted r l) (ha : l.head? = some a) (hb : l.getLast? = some b) :
    r a b ∨ a = b := by
  cases l with
  | nil => simp at ha
  | cons x xs =>
      have hx : x = a := by simpa using ha
      subst hx
      have hmem : b ∈ x :: xs := getLast?_mem _ hb
      rcases List.mem_cons.mp hmem with h | h
      · right; exact h.symm
      · left; exact (List.sorted_cons.mp hs).1 b h

theorem lookupVersion_isSome {C : Type} (adapters : List (SchemaVersion × C))
    {v : SchemaVersion} (h : v ∈ adapters.map Prod.fst) :
    ∃ cfg, lookupVersion adapters v = some cfg := by
  induction adapters with
  | nil => simp at h
  | cons p rest ih =>
      by_cases hp : p.1 = v
      · exact ⟨p.2, by simp [lookupVersion, hp]⟩
      · have : v ∈ rest.map Prod.fst := by
          simp only [List.map_cons, List.mem_cons] at h
          exact h.resolve_left (fun hh => hp hh.symm)
        obtain ⟨cfg, hcfg⟩ := ih this
        exact ⟨cfg, by simp [lookupVersion, hp, hcfg]⟩

/-- C1: candidate-resolution of `resolve_version_adapter` agrees, on
every registry and every target schema id, with the claim's description
(`resolve_spec`): the smallest registered version ≥ the target wins when
its major matches, else the version immediately preceding it in sorted
order when that one's major matches, else NoCompatibleVersion — in
particular the Python wrap-around of index -1 to the last element when
the lower bound is index 0 never changes the outcome.  The concrete
conjuncts check the claim's examples on registered versions
{1.0.0, 1.2.0, 2.0.0}. -/
theorem resolve_version_adapter_matches_spec :
    (∀ (reg : DatasetAdapterRegistry Nat) (classification : String) (version : SchemaVersion),
      resolve_version_adapter reg classification version
        = resolve_spec reg classification version)
    ∧ resolve_version_adapter ⟨"X", [(⟨1, 0, 0⟩, 1), (⟨1, 2, 0⟩, 2), (⟨2, 0, 0⟩, 3)]⟩
        "X" ⟨1, 1, 0⟩ = .ok 2
    ∧ resolve_version_adapter ⟨"X", [(⟨1, 0, 0⟩, 1), (⟨1, 2, 0⟩, 2), (⟨2, 0, 0⟩, 3)]⟩
        "X" ⟨1, 5, 0⟩ = .ok 2
    ∧ resolve_version_adapter ⟨"X", [(⟨1, 0, 0⟩, 1), (⟨1, 2, 0⟩, 2), (⟨2, 0, 0⟩, 3)]⟩
        "X" ⟨2, 0, 0⟩ = .ok 3
    ∧ resolve_version_adapter ⟨"X", [(⟨1, 0, 0⟩, 1), (⟨1, 2, 0⟩, 2), (⟨2, 0, 0⟩, 3)]⟩
        "X" ⟨3, 0, 0⟩ = .error .noCompatibleVersion
    ∧ resolve_version_adapter (C := Nat) ⟨"X", []⟩ "X" ⟨1, 0, 0⟩
        = .error .noCompatibleVersion := by
  refine ⟨?_, rfl, rfl, rfl, rfl, rfl⟩
  intro reg classification version
  unfold resolve_version_adapter resolve_spec
  by_cases hcls : classification ≠ reg.object_type
  · simp [hcls]
  · simp only [hcls, if_false]
    set S := List.insertionSort vleP (reg.adapters.map Prod.fst) with hS
    have hsorted : List.Sorted vleP S := List.sorted_insertionSort vleP _
    have hmemS : ∀ v ∈ S, v ∈ reg.adapters.map Prod.fst := by
      intro v hv
      exact (List.perm_insertionSort vleP (reg.adapters.map Prod.fst)).mem_iff.mp hv
    set p : SchemaVersion → Bool := fun v => vlt v version with hp
    set T := S.takeWhile p with hT
    set D := S.dropWhile p with hD
    have hTD : T ++ D = S := List.takeWhile_append_dropWhile p S
    have hbl : bisect_left S version = T.length := rfl
    have hTle : T.length ≤ S.length := by
      rw [← hTD]; simp
    -- evaluate the first candidate: the head of the dropWhile suffix
    have hfst : JP.pyListGet S (T.length : Int) = D.head? := by
      rw [pyListGet_natCast, ← hTD, List.getElem?_append_right (Nat.le_refl T.length),
        Nat.sub_self, ← List.head?_eq_getElem?]
    rw [hbl, tryCandidate, hfst]
    cases hDh : D.head? with
    | none =>
        -- no version ≥ target: D is empty, T = S
        have hDnil : D = [] := head?_none_nil hDh
        have hTS : T = S := by rw [← hTD, hDnil, List.append_nil]
        rcases Nat.eq_zero_or_pos T.length with hT0 | hTpos
        · -- nothing registered at all
          have hTnil : T = [] := List.length_eq_zero.mp hT0
          have hSnil : S = [] := by rw [← hTS, hTnil]
          have hneg : (T.length : Int) - 1 = -1 := by omega
          rw [tryCandidate, hneg, pyListGet_neg_one, hSnil]
          simp [chooseCompatible, choosePred, hTnil]
        · -- fall back to the largest registered version, the last of T
          have hcast : (T.length : Int) - 1 = ((T.length - 1 : Nat) : Int) := by omega
          have hlast : S[T.length - 1]? = T.getLast? := by
            rw [List.getLast?_eq_getElem?, hTS]
          rw [tryCandidate, hcast, pyListGet_natCast, hlast]
          cases hTl : T.getLast? with
          | none => simp [chooseCompatible, choosePred, hTl]
          | some pr =>
              by_cases hpm : pr.major = version.major
              · obtain ⟨cfg, hcfg⟩ :=
                  lookupVersion_isSome reg.adapters (hmemS pr (hTS ▸ getLast?_mem T hTl))
                simp [chooseCompatible, choosePred, hTl, hpm, hcfg]
              · simp [chooseCompatible, choosePred, hTl, hpm]
    | some c =>
        by_cases hcm : c.major = version.major
        · -- the ≥ candidate qualifies
          have hcS : c ∈ S := by
            rw [← hTD]
            exact List.mem_append.mpr (Or.inr (head?_mem hDh))
          obtain ⟨cfg, hcfg⟩ := lookupVersion_isSome reg.adapters (hmemS c hcS)
          simp [chooseCompatible, hcm, hcfg]
        · rcases Nat.eq_zero_or_pos T.length with hT0 | hTpos
          · -- lower bound at index 0: Python index -1 wraps around to the
            -- largest registered version, whose major can never match here
            have hTnil : T = [] := List.length_eq_zero.mp hT0
            have hDS : D = S := by rw [← hTD, hTnil, List.nil_append]
            have hneg : (T.length : Int) - 1 = -1 := by omega
            rw [tryCandidate, hneg, pyListGet_neg_one]
            cases hSl : S.getLast? with
            | none => simp [chooseCompatible, choosePred, hTnil, hcm]
            | some lst =>
                -- version ≤ c (the head of S) and c.major ≠ version.major,
                -- so version.major < c.major ≤ lst.major
                have hvc : vle version c = true := by
                  refine vle_of_not_vlt ?_
                  have hpc := head?_dropWhile_false p S (hD ▸ hDh)
                  simpa [hp, vlt] using hpc
                have hclst : vleP c lst ∨ c = lst := by
                  have hhead : S.head? = some c := by rw [← hDS]; exact hDh
                  exact sorted_head_getLast hsorted hhead hSl
                have hmaj : version.major < lst.major := by
                  have h1 : version.major ≤ c.major := vle_major hvc
                  have h2 : c.major ≤ lst.major := by
                    rcases hclst with h | h
                    · exact vle_major h
                    · rw [h]
                  omega
                have hlm : ¬ lst.major = version.major := by omega
                simp [chooseCompatible, choosePred, hTnil, hcm, hlm]
          · -- genuine predecessor: the last element of T
            have hcast : (T.length : Int) - 1 = ((T.length - 1 : Nat) : Int) := by omega
            have hlast : S[T.length - 1]? = T.getLast? := by
              rw [← hTD, List.getElem?_append_left (by omega), List.getLast?_eq_getElem?]
            rw [tryCandidate, hcast, pyListGet_natCast, hlast]
            cases hTl : T.getLast? with
            | none => simp [chooseCompatible, choosePred, hTl, hcm]
            | some pr =>
                by_cases hpm : pr.major = version.major
                · have hprS : pr ∈ S := by
                    rw [← hTD]
                    exact List.mem_append.mpr (Or.inl (getLast?_mem T hTl))
                  obtain ⟨cfg, hcfg⟩ := lookupVersion_isSome reg.adapters (hmemS pr hprS)
                  simp [chooseCompatible, choosePred, hTl, hcm, hpm, hcfg]
                · simp [chooseCompatible, choosePred, hTl, hcm, hpm]

end Registry

namespace Loaders

/-- A cell of a tabular frame: an integer value, a string value (category
labels), or a missing value (NaN/None in pandas). -/
inductive Cell where
  | int (n : Int)
  | str (s : String)
  | missing
  deriving DecidableEq

/-- A pandas DataFrame, modelled as an ordered list of named columns of
cells. -/
structure Frame where
  cols : List (String × List Cell)
  deriving DecidableEq

/-- The errors a feedback split can raise (`ValueError` in Python). -/
inductive SplitError where
  | negativeSizes
  deriving DecidableEq

/-- A rational is binary64-representable when it is m * 2^e with a
significand of at most 53 bits; every finite IEEE-754 double (normal or
subnormal) has this form. -/
def representableF64 (q : ℚ) : Prop :=
  ∃ m e : Int, m.natAbs ≤ 2 ^ 53 ∧ q = (m : ℚ) * (2 : ℚ) ^ e

/-- Fuel-driven floor of log2 on naturals (structurally recursive on the
fuel so that concrete instances reduce in the kernel); fuel n always
suffices for input n. -/
def natLog2 : Nat → Nat → Nat
  | 0, _ => 0
  | fuel + 1, n => if n < 2 then 0 else natLog2 fuel (n / 2) + 1

/-- The integer e with 2^e ≤ q < 2^(e+1), for a positive rational q:
the true floor-log2 of num/den is log2 num - log2 den or one less, so
compare q against the larger candidate. -/
def ratLog2 (q : ℚ) : Int :=
  let a : Int := natLog2 q.num.toNat q.num.toNat
  let b : Int := natLog2 q.den q.den
  if (2 : ℚ) ^ (a - b) ≤ q then a - b else a - b - 1

/-- The significand choice of round-to-nearest, ties to even: `s` is the
exact value scaled onto the significand grid and `m0` its floor. -/
def roundMant (s : ℚ) (m0 : Int) : Int :=
  if s - (m0 : ℚ) < 1 / 2 then m0
  else if 1 / 2 < s - (m0 : ℚ) then m0 + 1
  else if m0 % 2 = 0 then m0 else m0 + 1

/-- Rounding of a positive rational onto the binary64 grid m * 2^e with
53-bit significands: scale by 2^(52 - e) for the exponent e of q, round
the scaled value to the nearest integer (ties to even), and scale back. -/
def roundPos (q : ℚ) : ℚ :=
  ((roundMant (q * (2 : ℚ) ^ (52 - ratLog2 q))
      (Rat.floor (q * (2 : ℚ) ^ (52 - ratLog2 q)))) : ℚ)
    * (2 : ℚ) ^ (ratLog2 q - 52)

/-- Round to nearest, ties to even, onto the grid of rationals m * 2^e
with 53-bit significands.  For magnitudes in the normal range of binary64
(the only regime the concrete instances below use) this is exactly the
IEEE-754 double rounding; it ignores the overflow and subnormal
thresholds, and 0 maps to 0. -/
def roundF64 (q : ℚ) : ℚ :=
  if q = 0 then 0
  else if q < 0 then -roundPos (-q) else roundPos q

/-- Model of `_split_feedback` (loaders.py): the proportion of feedback
allocated to the left side.  The final branch is Python int true
division `left / (left + right)`, which IEEE-754 defines as the exact
rational quotient rounded to a binary64 double; the rounding map `fl` is
passed explicitly (for CPython it is round-to-nearest, ties to even), so
the model commits only to the result being `fl` of the exact ratio.  The
fallback branches return the Python float literals 1.0 and 0.0, which are
exact binary64 values. -/
def split_feedback (fl : ℚ → ℚ) (left right : Int) : Except SplitError ℚ :=
  if left < 0 ∨ right < 0 then .error .negativeSizes
  else if left ≥ 0 ∧ right = 0 then .ok 1
  else if right > 0 ∧ left = 0 then .ok 0
  else .ok (fl ((left : ℚ) / ((left : ℚ) + (right : ℚ))))

/-- The shape of a values table reference (ArrayTableInfo): length and
width in cells. -/
structure ArrayTableInfo where
  length : Nat
  width : Nat
  deriving DecidableEq

/-- The declared shape of a lookup table reference (LookupTableInfo):
only its length (lookup tables always have 2 columns). -/
structure LookupTableInfo where
  length : Nat
  deriving DecidableEq

/-- The configuration of a `ValuesLoader` (its `__init__` fields):
optional column names (None when none were passed), the values table
info, the optional lookup table info, and the optional sentinel list.
Sentinel lists are numeric (NanCategorical/NanContinuous in types.py),
modelled as integers. -/
structure ValuesLoader where
  column_names : Option (List String)
  values : ArrayTableInfo
  table : Option LookupTableInfo
  nan_values : Option (List Int)

/-- Python `dict(pairs)` lookup: for duplicate keys the later pair wins. -/
def lookupLast (pairs : List (Int × String)) (n : Int) : Option String :=
  match pairs with
  | [] => none
  | (k, v) :: rest =>
      match lookupLast rest n with
      | some r => some r
      | none => if k = n then some v else none

/-- One cell of `df.replace(lookup_dict)`: a cell equal to a code of the
lookup dictionary is replaced by its category label. -/
def replaceCell (pairs : List (Int × String)) : Cell → Cell
  | .int n =>
      match lookupLast pairs n with
      | some lbl => .str lbl
      | none => .int n
  | c => c

/-- One cell of `df.mask(df.isin(nan_values))`: a value appearing in the
sentinel list becomes missing; other cells (including already-missing
ones, which `isin` never matches) are unchanged. -/
def maskCell (nan : List Int) : Cell → Cell
  | .int n => if n ∈ nan then .missing else .int n
  | c => c

/-- Apply a cell transformation to every cell of every column. -/
def mapFrame (f : Cell → Cell) (df : Frame) : Frame :=
  ⟨df.cols.map (fun col => (col.1, col.2.map f))⟩

/-- The errors a frame load can raise. -/
inductive LoadError where
  | columnCountMismatch
  deriving DecidableEq

/-- Positional column renaming, `df.columns = names`: pandas raises when
the number of names differs from the frame's width. -/
def renameColumns (df : Frame) (names : List String) : Except LoadError Frame :=
  if names.length = df.cols.length then .ok ⟨names.zip (df.cols.map Prod.snd)⟩
  else .error .columnCountMismatch

/-- Model of the feedback split computed at the top of
`ValuesLoader.download_dataframe` (lines 82-86): 1.0 by default when no
lookup table is configured, otherwise `_split_feedback` of the values
cell count (length * width) against the lookup cell count (length * 2). -/
def values_feedback_split (fl : ℚ → ℚ) (L : ValuesLoader) : Except SplitError ℚ :=
  match L.table with
  | none => .ok 1
  | some t => split_feedback fl ((L.values.length : Int) * L.values.width) ((t.length : Int) * 2)

/-- Model of `ValuesLoader.download_dataframe`, with the two external
downloads supplied as arguments: `values_df` is the frame returned by the
values-table download and `lookup_values` the code/label pairs returned
by the lookup-table download (fetched only when a lookup table is
configured with length > 0).  The body mirrors the source: replace codes
by labels when a configured lookup table has positive length, mask the
sentinel values, rename the columns positionally when names were given. -/
def download_dataframe (L : ValuesLoader) (values_df : Frame)
    (lookup_values : List (Int × String)) : Except LoadError Frame :=
  let df := values_df
  let df :=
    match L.table with
    | some t => if t.length > 0 then mapFrame (replaceCell lookup_values) df else df
    | none => df
  let df :=
    match L.nan_values with
    | some nv => mapFrame (maskCell nv) df
    | none => df
  match L.column_names with
  | some names => renameColumns df names
  | none => .ok df

/-- The cell-level composition stated by the claim: lookup decode first
(only when a lookup table is configured with positive length), then
sentinel masking. -/
def cellPipeline (L : ValuesLoader) (lookup_values : List (Int × String)) (c : Cell) : Cell :=
  let c :=
    match L.table with
    | some t => if t.length > 0 then replaceCell lookup_values c else c
    | none => c
  match L.nan_values with
  | some nv => maskCell nv c
  | none => c

theorem mapFrame_mapFrame (f g : Cell → Cell) (df : Frame) :
    mapFrame f (mapFrame g df) = mapFrame (fun c => f (g c)) df := by
  simp [mapFrame, List.map_map, Function.comp_def]

theorem mapFrame_id (df : Frame) : mapFrame (fun c => c) df = df := by
  simp [mapFrame]

/-- C5: the loaded frame is the downloaded values frame transformed
cell-wise by lookup decode (applied exactly when a lookup table is
configured with declared length > 0) followed by sentinel masking, and
finally renamed positionally when column names are configured; when no
lookup table is configured (or its length is 0) the lookup download is
irrelevant to the result.  The last conjunct is the claim's example: with
sentinel -9999 and downloaded raw values [1, -9999, 3], row 1 becomes
missing and rows 0 and 2 are unchanged. -/
theorem download_dataframe_pipeline :
    (∀ (L : ValuesLoader) (df : Frame) (lv : List (Int × String)),
      download_dataframe L df lv
        = match L.column_names with
          | some names => renameColumns (mapFrame (cellPipeline L lv) df) names
          | none => .ok (mapFrame (cellPipeline L lv) df))
    ∧ (∀ (L : ValuesLoader) (df : Frame) (lv : List (Int × String)),
        (L.table = none ∨ L.table = some ⟨0⟩) →
        download_dataframe L df lv = download_dataframe L df [])
    ∧ download_dataframe ⟨none, ⟨3, 1⟩, none, some [-9999]⟩
        ⟨[("v", [.int 1, .int (-9999), .int 3])]⟩ []
        = .ok ⟨[("v", [.int 1, .missing, .int 3])]⟩ := by
  refine ⟨?_, ?_, ?_⟩
  · intro L df lv
    obtain ⟨cn, va, tb, nv⟩ := L
    cases tb with
    | none =>
        cases nv with
        | none =>
            have hcp : cellPipeline ⟨cn, va, none, none⟩ lv = fun c => c := rfl
            simp [download_dataframe, hcp, mapFrame_id]
        | some nvl =>
            have hcp : cellPipeline ⟨cn, va, none, some nvl⟩ lv = maskCell nvl := rfl
            simp [download_dataframe, hcp]
    | some t =>
        by_cases ht : t.length > 0
        · cases nv with
          | none =>
              have hcp : cellPipeline ⟨cn, va, some t, none⟩ lv = replaceCell lv := by
                funext c; simp [cellPipeline, ht]
              simp [download_dataframe, hcp, ht]
          | some nvl =>
              have hcp : cellPipeline ⟨cn, va, some t, some nvl⟩ lv
                  = fun c => maskCell nvl (replaceCell lv c) := by
                funext c; simp [cellPipeline, ht]
              simp [download_dataframe, hcp, ht, mapFrame_mapFrame]
        · cases nv with
          | none =>
              have hcp : cellPipeline ⟨cn, va, some t, none⟩ lv = fun c => c := by
                funext c; simp [cellPipeline, ht]
              simp [download_dataframe, hcp, ht, mapFrame_id]
          | some nvl =>
              have hcp : cellPipeline ⟨cn, va, some t, some nvl⟩ lv = maskCell nvl := by
                funext c; simp [cellPipeline, ht]
              simp [download_dataframe, hcp, ht]
  · intro L df lv h
    obtain ⟨cn, va, tb, nv⟩ := L
    rcases h with h | h <;> simp only at h <;> subst h <;> rfl
  · rfl

/-- Witness for C5: the lookup-independence conjunct applied to the
sentinel-example loader (no lookup table configured) at a nonempty
lookup-pairs argument. -/
theorem download_dataframe_pipeline_witness :
    ((⟨none, ⟨3, 1⟩, none, some [-9999]⟩ : ValuesLoader).table = none
        ∨ (⟨none, ⟨3, 1⟩, none, some [-9999]⟩ : ValuesLoader).table = some ⟨0⟩)
    ∧ download_dataframe ⟨none, ⟨3, 1⟩, none, some [-9999]⟩ ⟨[("v", [.int 5])]⟩ [(1, "A")]
        = download_dataframe ⟨none, ⟨3, 1⟩, none, some [-9999]⟩ ⟨[("v", [.int 5])]⟩ [] :=
  ⟨Or.inl rfl,
    download_dataframe_pipeline.2.1 ⟨none, ⟨3, 1⟩, none, some [-9999]⟩
      ⟨[("v", [.int 5])]⟩ [(1, "A")] (Or.inl rfl)⟩

theorem split_feedback_natCast (fl : ℚ → ℚ) (a b : Nat) :
    split_feedback fl (a : Int) (b : Int)
      = if b = 0 then .ok 1 else if a = 0 then .ok 0
        else .ok (fl ((a : ℚ) / ((a : ℚ) + (b : ℚ)))) := by
  unfold split_feedback
  have h1 : ¬((a : Int) < 0 ∨ (b : Int) < 0) := by omega
  rw [if_neg h1]
  by_cases hb : b = 0
  · subst hb
    have h2 : (a : Int) ≥ 0 ∧ ((0 : Nat) : Int) = 0 := ⟨Int.natCast_nonneg a, rfl⟩
    rw [if_pos h2]
    simp
  · have h2 : ¬((a : Int) ≥ 0 ∧ (b : Int) = 0) := by
      intro hc
      exact hb (by exact_mod_cast hc.2)
    rw [if_neg h2, if_neg hb]
    by_cases ha : a = 0
    · subst ha
      have h3 : (b : Int) > 0 ∧ ((0 : Nat) : Int) = 0 := ⟨by omega, rfl⟩
      rw [if_pos h3]
      simp
    · have h3 : ¬((b : Int) > 0 ∧ (a : Int) = 0) := by
        intro hc
        exact ha (by exact_mod_cast hc.2)
      rw [if_neg h3, if_neg ha]
      push_cast
      rfl

theorem natLog2_bounds : ∀ (fuel n : Nat), 1 ≤ n → n ≤ fuel →
    2 ^ natLog2 fuel n ≤ n ∧ n < 2 ^ (natLog2 fuel n + 1) := by
  intro fuel
  induction fuel with
  | zero => intro n h1 h2; exact absurd h2 (by omega)
  | succ fuel ih =>
      intro n h1 h2
      by_cases h : n < 2
      · have he : natLog2 (fuel + 1) n = 0 := by simp [natLog2, h]
        rw [he]
        simp only [pow_zero, zero_add, pow_one]
        omega
      · have he : natLog2 (fuel + 1) n = natLog2 fuel (n / 2) + 1 := by simp [natLog2, h]
        rw [he]
        obtain ⟨ih1, ih2⟩ := ih (n / 2) (by omega) (by omega)
        have hp1 : 2 ^ (natLog2 fuel (n / 2) + 1) = 2 * 2 ^ natLog2 fuel (n / 2) := by ring
        have hp2 : 2 ^ (natLog2 fuel (n / 2) + 1 + 1)
            = 2 * 2 ^ (natLog2 fuel (n / 2) + 1) := by ring
        omega

theorem ratLog2_def (q : ℚ) :
    ratLog2 q
      = if (2 : ℚ) ^ ((natLog2 q.num.toNat q.num.toNat : ℤ) - (natLog2 q.den q.den : ℤ)) ≤ q
        then (natLog2 q.num.toNat q.num.toNat : ℤ) - (natLog2 q.den q.den : ℤ)
        else (natLog2 q.num.toNat q.num.toNat : ℤ) - (natLog2 q.den q.den : ℤ) - 1 := rfl

theorem ratLog2_bounds (q : ℚ) (hq : 0 < q) :
    (2 : ℚ) ^ ratLog2 q ≤ q ∧ q < (2 : ℚ) ^ (ratLog2 q + 1) := by
  have hnum : 0 < q.num := Rat.num_pos.mpr hq
  obtain ⟨ha1, ha2⟩ := natLog2_bounds q.num.toNat q.num.toNat (by omega) le_rfl
  obtain ⟨hb1, hb2⟩ := natLog2_bounds q.den q.den q.den_pos le_rfl
  rw [ratLog2_def]
  set A : ℤ := (natLog2 q.num.toNat q.num.toNat : ℤ) with hA
  set B : ℤ := (natLog2 q.den q.den : ℤ) with hB
  have hnq : ((q.num.toNat : ℚ)) = (q.num : ℚ) := by
    exact_mod_cast congrArg (fun z : ℤ => (z : ℚ)) (Int.toNat_of_nonneg hnum.le)
  have hq_eq : q = (q.num.toNat : ℚ) / (q.den : ℚ) := by
    rw [hnq, Rat.num_div_den]
  have hn0 : (0 : ℚ) < (q.num.toNat : ℚ) := by
    rw [hnq]
    exact_mod_cast hnum
  have hd0 : (0 : ℚ) < (q.den : ℚ) := by exact_mod_cast q.den_pos
  have ha1q : (2 : ℚ) ^ A ≤ (q.num.toNat : ℚ) := by
    rw [hA, zpow_natCast]
    exact_mod_cast ha1
  have ha2q : (q.num.toNat : ℚ) < (2 : ℚ) ^ (A + 1) := by
    have e1 : A + 1 = ((natLog2 q.num.toNat q.num.toNat + 1 : ℕ) : ℤ) := by
      rw [hA]
      push_cast
      ring
    rw [e1, zpow_natCast]
    exact_mod_cast ha2
  have hb1q : (2 : ℚ) ^ B ≤ (q.den : ℚ) := by
    rw [hB, zpow_natCast]
    exact_mod_cast hb1
  have hb2q : (q.den : ℚ) < (2 : ℚ) ^ (B + 1) := by
    have e1 : B + 1 = ((natLog2 q.den q.den + 1 : ℕ) : ℤ) := by
      rw [hB]
      push_cast
      ring
    rw [e1, zpow_natCast]
    exact_mod_cast hb2
  have hup : q < (2 : ℚ) ^ (A - B + 1) := by
    have h1 : q < (2 : ℚ) ^ (A + 1) / (2 : ℚ) ^ B := by
      rw [hq_eq]
      gcongr
    calc q < (2 : ℚ) ^ (A + 1) / (2 : ℚ) ^ B := h1
      _ = (2 : ℚ) ^ (A - B + 1) := by
          rw [← zpow_sub₀ (by norm_num : (2 : ℚ) ≠ 0)]
          congr 1
          ring
  have hlow : (2 : ℚ) ^ (A - B - 1) < q := by
    have h1 : (2 : ℚ) ^ A / (2 : ℚ) ^ (B + 1) < q := by
      rw [hq_eq]
      calc (2 : ℚ) ^ A / (2 : ℚ) ^ (B + 1)
          < (2 : ℚ) ^ A / (q.den : ℚ) :=
            div_lt_div_of_pos_left (by positivity) hd0 hb2q
        _ ≤ (q.num.toNat : ℚ) / (q.den : ℚ) := by gcongr
    calc (2 : ℚ) ^ (A - B - 1) = (2 : ℚ) ^ A / (2 : ℚ) ^ (B + 1) := by
          rw [← zpow_sub₀ (by norm_num : (2 : ℚ) ≠ 0)]
          congr 1
          ring
      _ < q := h1
  by_cases hc : (2 : ℚ) ^ (A - B) ≤ q
  · rw [if_pos hc]
    exact ⟨hc, hup⟩
  · rw [if_neg hc]
    refine ⟨hlow.le, ?_⟩
    have e1 : A - B - 1 + 1 = A - B := by ring
    rw [e1]
    exact not_le.mp hc

theorem ratLog2_eq (q : ℚ) (e : Int) (hq : 0 < q)
    (h1 : (2 : ℚ) ^ e ≤ q) (h2 : q < (2 : ℚ) ^ (e + 1)) : ratLog2 q = e := by
  obtain ⟨g1, g2⟩ := ratLog2_bounds q hq
  by_contra hne
  rcases lt_or_gt_of_ne hne with hlt | hgt
  · have : (2 : ℚ) ^ (ratLog2 q + 1) ≤ (2 : ℚ) ^ e := by
      apply zpow_le_zpow_right₀ (by norm_num)
      omega
    linarith
  · have : (2 : ℚ) ^ (e + 1) ≤ (2 : ℚ) ^ ratLog2 q := by
      apply zpow_le_zpow_right₀ (by norm_num)
      omega
    linarith

theorem rat_floor_eq (s : ℚ) (m : Int) (h1 : (m : ℚ) ≤ s) (h2 : s < (m : ℚ) + 1) :
    Rat.floor s = m := by
  have hle : m ≤ Rat.floor s := Rat.le_floor.mpr h1
  have hlt : Rat.floor s < m + 1 := by
    by_contra hc
    push_neg at hc
    have h3 : ((m + 1 : Int) : ℚ) ≤ s := Rat.le_floor.mp hc
    push_cast at h3
    linarith
  omega

/-- Evaluation rule for the rounding map in the round-down case (the only
case the concrete instances below need): when e is the exponent of q and
the scaled value lies within 1/2 above its floor m0, the rounding returns
m0 * 2^(e - 52). -/
theorem roundF64_eq_down (q : ℚ) (e m0 : Int) (hq : 0 < q)
    (he1 : (2 : ℚ) ^ e ≤ q) (he2 : q < (2 : ℚ) ^ (e + 1))
    (hm1 : (m0 : ℚ) ≤ q * (2 : ℚ) ^ (52 - e))
    (hm2 : q * (2 : ℚ) ^ (52 - e) - (m0 : ℚ) < 1 / 2) :
    roundF64 q = (m0 : ℚ) * (2 : ℚ) ^ (e - 52) := by
  have hlog : ratLog2 q = e := ratLog2_eq q e hq he1 he2
  have hfl : Rat.floor (q * (2 : ℚ) ^ (52 - e)) = m0 :=
    rat_floor_eq _ m0 hm1 (by linarith)
  rw [roundF64, if_neg hq.ne', if_neg (by linarith : ¬ q < 0)]
  rw [roundPos, hlog, hfl]
  rw [roundMant, if_pos hm2]

theorem roundF64_third :
    roundF64 (1 / 3 : ℚ) = 6004799503160661 / 18014398509481984 := by
  have hr : roundF64 (1 / 3 : ℚ)
      = ((6004799503160661 : ℤ) : ℚ) * (2 : ℚ) ^ ((-2 : ℤ) - 52) := by
    apply roundF64_eq_down (1 / 3) (-2) 6004799503160661 (by norm_num)
    · norm_num
    · norm_num
    · norm_num
    · norm_num
  rw [hr]
  norm_num

theorem roundF64_three_eighths : roundF64 (3 / 8 : ℚ) = 3 / 8 := by
  have hr : roundF64 (3 / 8 : ℚ)
      = ((6755399441055744 : ℤ) : ℚ) * (2 : ℚ) ^ ((-2 : ℤ) - 52) := by
    apply roundF64_eq_down (3 / 8) (-2) 6755399441055744 (by norm_num)
    · norm_num
    · norm_num
    · norm_num
    · norm_num
  rw [hr]
  norm_num

/-- The positive-cells branch of the feedback split: with a configured
lookup table and both cell counts positive, the result is the rounding
map applied to the exact ratio of the values cell count to the total. -/
theorem values_feedback_split_pos (fl : ℚ → ℚ) (cn : Option (List String)) (L W T : Nat)
    (nv : Option (List Int)) (hLW : 0 < L * W) (hT : 0 < T) :
    values_feedback_split fl ⟨cn, ⟨L, W⟩, some ⟨T⟩, nv⟩
      = .ok (fl (((L * W : Nat) : ℚ) / (((L * W : Nat) : ℚ) + 2 * (T : ℚ)))) := by
  have e : values_feedback_split fl ⟨cn, ⟨L, W⟩, some ⟨T⟩, nv⟩
      = split_feedback fl ((L * W : Nat) : Int) ((T * 2 : Nat) : Int) := rfl
  rw [e, split_feedback_natCast, if_neg (by omega : ¬ T * 2 = 0),
    if_neg (by omega : ¬ L * W = 0)]
  have harg : ((T * 2 : Nat) : ℚ) = 2 * (T : ℚ) := by
    push_cast
    ring
  rw [harg]

/-- Counterexample to the exactness reading of C6: at L = W = T = 1 the
program divides 1 by 3 in binary64 arithmetic.  With the binary64
rounding map, the computed fraction is the nearest double
6004799503160661 / 2^54, which differs from (L*W) / (L*W + 2*T) = 1/3;
indeed no binary64 value equals 1/3, since 1/3 is not of the form
m * 2^e. -/
theorem split_feedback_exactness_counterexample :
    values_feedback_split roundF64 ⟨none, ⟨1, 1⟩, some ⟨1⟩, none⟩
        = .ok (6004799503160661 / 18014398509481984)
      ∧ (6004799503160661 / 18014398509481984 : ℚ) ≠ 1 / 3
      ∧ ¬ representableF64 (1 / 3) := by
  refine ⟨?_, by norm_num, ?_⟩
  · rw [values_feedback_split_pos roundF64 none 1 1 1 none (by norm_num) (by norm_num)]
    have harg : (((1 * 1 : Nat) : ℚ)) / (((1 * 1 : Nat) : ℚ) + 2 * ((1 : Nat) : ℚ))
        = 1 / 3 := by
      norm_num
    rw [harg, roundF64_third]
  rintro ⟨m, e, hm, he⟩
  rcases Int.eq_nat_or_neg e with ⟨n, hn | hn⟩
  · subst hn
    rw [zpow_natCast] at he
    have h1 : ((3 * (m * 2 ^ n) : ℤ) : ℚ) = 1 := by
      push_cast
      rw [← he]
      norm_num
    have h2 : (3 * (m * 2 ^ n) : ℤ) = 1 := by exact_mod_cast h1
    have h3 : (3 : ℤ) ∣ 1 := ⟨m * 2 ^ n, h2.symm⟩
    norm_num at h3
  · subst hn
    rw [zpow_neg, zpow_natCast, ← div_eq_mul_inv] at he
    have h3 : (3 : ℚ) ≠ 0 := by norm_num
    have hpow : ((2 : ℚ) ^ n) ≠ 0 := by positivity
    rw [div_eq_div_iff h3 hpow, one_mul] at he
    have h2 : ((2 : ℤ)) ^ n = m * 3 := by exact_mod_cast he
    have h4 : (3 : ℤ) ∣ 2 ^ n := ⟨m, by rw [h2]; ring⟩
    have h5 : (3 : ℤ) ∣ 2 := Int.prime_three.dvd_of_dvd_pow h4
    norm_num at h5

/-- C6 (amended): for a read with a configured lookup table, the feedback
fraction allocated to the values download is the binary64 rounding `fl`
of the exact ratio (length * width) / (length * width + 2 * lookup_length)
— equal to the ratio itself exactly when the ratio is representable, as
in the final concrete conjunct where 6 / (6 + 10) = 3/8 — with fallback
1.0 when the lookup cell count is 0 (and when no lookup table is
configured at all), fallback 0.0 when the values cell count is 0 while
the lookup cell count is positive, and rejection of negative sizes by the
split helper; the fallbacks do not pass through the rounding map, as the
source returns the exact float literals 1.0 and 0.0 there. -/
theorem split_feedback_values_allocation :
    (∀ (fl : ℚ → ℚ) (cn : Option (List String)) (L W T : Nat) (nv : Option (List Int)),
        0 < L * W → 0 < T →
        values_feedback_split fl ⟨cn, ⟨L, W⟩, some ⟨T⟩, nv⟩
          = .ok (fl (((L * W : Nat) : ℚ) / (((L * W : Nat) : ℚ) + 2 * (T : ℚ)))))
    ∧ (∀ (fl : ℚ → ℚ) (cn : Option (List String)) (L W : Nat) (nv : Option (List Int)),
        values_feedback_split fl ⟨cn, ⟨L, W⟩, some ⟨0⟩, nv⟩ = .ok 1)
    ∧ (∀ (fl : ℚ → ℚ) (cn : Option (List String)) (va : ArrayTableInfo)
        (nv : Option (List Int)),
        values_feedback_split fl ⟨cn, va, none, nv⟩ = .ok 1)
    ∧ (∀ (fl : ℚ → ℚ) (cn : Option (List String)) (L W T : Nat) (nv : Option (List Int)),
        L * W = 0 → 0 < T →
        values_feedback_split fl ⟨cn, ⟨L, W⟩, some ⟨T⟩, nv⟩ = .ok 0)
    ∧ (∀ (fl : ℚ → ℚ) (l r : Int), l < 0 ∨ r < 0 →
        split_feedback fl l r = .error .negativeSizes)
    ∧ values_feedback_split roundF64 ⟨none, ⟨3, 2⟩, some ⟨5⟩, none⟩ = .ok (3 / 8) := by
  refine ⟨?_, ?_, ?_, ?_, ?_, ?_⟩
  · intro fl cn L W T nv hLW hT
    exact values_feedback_split_pos fl cn L W T nv hLW hT
  · intro fl cn L W nv
    have e : values_feedback_split fl ⟨cn, ⟨L, W⟩, some ⟨0⟩, nv⟩
        = split_feedback fl ((L * W : Nat) : Int) ((0 * 2 : Nat) : Int) := rfl
    rw [e, split_feedback_natCast, if_pos (by omega : (0 : Nat) * 2 = 0)]
  · intro fl cn va nv
    rfl
  · intro fl cn L W T nv hLW hT
    have e : values_feedback_split fl ⟨cn, ⟨L, W⟩, some ⟨T⟩, nv⟩
        = split_feedback fl ((L * W : Nat) : Int) ((T * 2 : Nat) : Int) := rfl
    rw [e, split_feedback_natCast, if_neg (by omega : ¬ T * 2 = 0), if_pos hLW]
  · intro fl l r h
    unfold split_feedback
    rw [if_pos h]
  · rw [values_feedback_split_pos roundF64 none 3 2 5 none (by norm_num) (by norm_num)]
    have harg : (((3 * 2 : Nat) : ℚ)) / (((3 * 2 : Nat) : ℚ) + 2 * ((5 : Nat) : ℚ))
        = 3 / 8 := by
      norm_num
    rw [harg, roundF64_three_eighths]

/-- Witness for C6 at concrete sizes: a 3x2 values table with a length-5
lookup table yields the rounding of the exact fraction 6/16; a zero-cell
values table with a positive lookup table yields 0; a negative size is
rejected. -/
theorem split_feedback_values_allocation_witness :
    (0 < 3 * 2 ∧ 0 < 5
      ∧ values_feedback_split roundF64 ⟨none, ⟨3, 2⟩, some ⟨5⟩, none⟩
          = .ok (roundF64 (((3 * 2 : Nat) : ℚ) / (((3 * 2 : Nat) : ℚ) + 2 * (5 : ℚ)))))
    ∧ (0 * 7 = 0 ∧ 0 < 4
      ∧ values_feedback_split roundF64 ⟨none, ⟨0, 7⟩, some ⟨4⟩, none⟩ = .ok 0)
    ∧ (((-1 : Int) < 0 ∨ (2 : Int) < 0)
      ∧ split_feedback roundF64 (-1) 2 = .error .negativeSizes) := by
  refine ⟨⟨by norm_num, by norm_num, ?_⟩, ⟨rfl, by norm_num, ?_⟩, ⟨by norm_num, ?_⟩⟩
  · exact split_feedback_values_allocation.1 roundF64 none 3 2 5 none (by norm_num)
      (by norm_num)
  · exact split_feedback_values_allocation.2.2.2.1 roundF64 none 0 7 4 none rfl (by norm_num)
  · exact split_feedback_values_allocation.2.2.2.2.1 roundF64 (-1) 2 (by norm_num)

end Loaders

namespace Attrs

/-- The dtype of a pandas Series, as far as
`_infer_attribute_type_from_series` distinguishes them. -/
inductive Dtype where
  | integer
  | floating
  | boolean
  | categorical
  | text
  | unsupported
  deriving DecidableEq

/-- A single pandas column: name, dtype and cell values. -/
structure Column where
  name : String
  dtype : Dtype
  values : List Loaders.Cell
  deriving DecidableEq

/-- Errors raised by the attribute upload helpers (ValueError in Python). -/
inductive UploadError where
  | unsupportedDtype
  | unsupportedAttributeType
  deriving DecidableEq

/-- Model of `_infer_attribute_type_from_series`: map the series dtype to
the attribute type string; unsupported dtypes raise. -/
def infer_attribute_type_from_series (d : Dtype) : Except UploadError String :=
  match d with
  | .integer => .ok "integer"
  | .floating => .ok "scalar"
  | .boolean => .ok "bool"
  | .categorical => .ok "category"
  | .text => .ok "string"
  | .unsupported => .error .unsupportedDtype

/-- A remote values-table reference, as returned by an upload.  The
upload itself is external I/O; the reference is modelled as determined by
the uploaded column data. -/
structure TableRef where
  data : List Loaders.Cell
  deriving DecidableEq

/-- A remote lookup-table reference returned by a categorical upload. -/
structure LookupRef where
  data : List Loaders.Cell
  deriving DecidableEq

/-- An ObjectAttribute record (types.py): name, optional stable key
(legacy records may lack it), attribute type, values reference, optional
lookup table reference and optional nan description. -/
structure ObjectAttribute where
  name : String
  key : Option String
  attribute_type : String
  values : TableRef
  table : Option LookupRef
  nan_description : Option (List Int)
  deriving DecidableEq

/-- Model of the `Attribute.key` property:
`self._attribute.get("key") or self._attribute["name"]` — the name is
the fallback for a missing (or falsy, i.e. empty) key. -/
def attrKey (a : ObjectAttribute) : String :=
  match a.key with
  | some k => if k = "" then a.name else k
  | none => a.name

/-- The dictionary built by `_upload_attribute_dataframe`: name, key and
attribute_type are always present; `table` is present exactly for
category uploads; `nan_description` is present exactly for scalar,
integer and category uploads (set to an empty list).  An absent field is
left untouched by a later `dict.update`. -/
structure AttributePatch where
  name : String
  key : String
  attribute_type : String
  values : TableRef
  table : Option LookupRef
  nan_description : Option (List Int)
  deriving DecidableEq

/-- Model of `_upload_attribute_dataframe`: look the uploader up by
attribute type (unknown types raise ValueError), upload the values (and,
for category, also the lookup table), and attach the nan_description for
scalar/integer/category. -/
def upload_attribute_dataframe (name key attribute_type : String) (series : Column) :
    Except UploadError AttributePatch :=
  if attribute_type = "category" then
    .ok ⟨name, key, attribute_type, ⟨series.values⟩, some ⟨series.values⟩, some []⟩
  else if attribute_type = "scalar" ∨ attribute_type = "integer" then
    .ok ⟨name, key, attribute_type, ⟨series.values⟩, none, some []⟩
  else if attribute_type = "bool" ∨ attribute_type = "string" then
    .ok ⟨name, key, attribute_type, ⟨series.values⟩, none, none⟩
  else .error .unsupportedAttributeType

/-- Python `self._attribute.update(patch)`: fields present in the patch
replace the record's fields; absent optional fields keep their old
value. -/
def updateAttribute (old : ObjectAttribute) (p : AttributePatch) : ObjectAttribute :=
  { name := p.name
    key := some p.key
    attribute_type := p.attribute_type
    values := p.values
    table := match p.table with | some t => some t | none => old.table
    nan_description := match p.nan_description with | some n => some n | none => old.nan_description }

/-- The record built from a fresh upload dictionary (a new attribute). -/
def attributeOfPatch (p : AttributePatch) : ObjectAttribute :=
  ⟨p.name, some p.key, p.attribute_type, p.values, p.table, p.nan_description⟩

/-- The in-memory `Attribute` object: the record plus the optional
`AttributeLoader` (which wraps the record snapshot it was constructed
with and is required for reading the values back). -/
structure Attribute where
  attr : ObjectAttribute
  loader : Option ObjectAttribute
  deriving DecidableEq

/-- The errors a read can raise (ValueError in Python). -/
inductive ReadError where
  | noLoader
  | noObject
  deriving DecidableEq

/-- Model of `Attribute.as_dataframe`: without a loader the values cannot
be loaded; with one, the download is driven by the loader's snapshot of
the record. -/
def Attribute.as_dataframe (a : Attribute) : Except ReadError ObjectAttribute :=
  match a.loader with
  | some l => .ok l
  | none => .error .noLoader

/-- Model of `Attribute.set_attribute_values`: infer or keep the
attribute type, upload the new values, merge the result into the record,
and drop the loader so the superseded values can no longer be loaded.
An upload failure propagates before any state is changed. -/
def set_attribute_values (a : Attribute) (df : Column) (infer_attribute_type : Bool) :
    Except UploadError Attribute :=
  match (if infer_attribute_type then infer_attribute_type_from_series df.dtype
         else .ok a.attr.attribute_type) with
  | .error e => .error e
  | .ok attribute_type =>
      match upload_attribute_dataframe a.attr.name (attrKey a.attr) attribute_type df with
      | .error e => .error e
      | .ok patch => .ok ⟨updateAttribute a.attr patch, none⟩

/-- The in-memory `Attributes` collection: the attribute objects plus a
counter modelling the uuid4 fresh-key source (uuid4 values are assumed
unique; the counter makes that explicit). -/
structure Attributes where
  attributes : List Attribute
  nextKey : Nat
  deriving DecidableEq

/-- The fresh keys drawn from the uuid4 source, in order. -/
def genKey (n : Nat) : String := "uuid4-" ++ toString n

/-- Model of `Attributes.append_attribute` for a single column: infer the
attribute type from the dtype, upload with a freshly generated key, and
append a new Attribute constructed without a loader. -/
def append_attribute (st : Attributes) (df : Column) : Except UploadError Attributes :=
  match infer_attribute_type_from_series df.dtype with
  | .error e => .error e
  | .ok attribute_type =>
      match upload_attribute_dataframe df.name (genKey st.nextKey) attribute_type df with
      | .error e => .error e
      | .ok patch => .ok ⟨st.attributes ++ [⟨attributeOfPatch patch, none⟩], st.nextKey + 1⟩

/-- The per-column search-and-update of `Attributes.update_attributes`:
`next((attr for attr in self if attr.name == attribute), None)` finds the
first attribute whose record name equals the column name and updates it
in place (type kept, not re-inferred); `none` means no record matched. -/
def update_in_list (attrs : List Attribute) (c : Column) :
    Option (Except UploadError (List Attribute)) :=
  match attrs with
  | [] => none
  | a :: rest =>
      if a.attr.name = c.name then
        some ((set_attribute_values a c false).map (· :: rest))
      else
        (update_in_list rest c).map (fun r => r.map (a :: ·))

/-- One iteration of `Attributes.update_attributes`: update the first
record matching the column by name, or append a new record. -/
def update_or_append (st : Attributes) (c : Column) : Except UploadError Attributes :=
  match update_in_list st.attributes c with
  | some r => r.map (fun attrs => ⟨attrs, st.nextKey⟩)
  | none => append_attribute st c

/-- Model of `Attributes.update_attributes`: per frame column, update the
first record with a matching name in place, appending otherwise. -/
def update_attributes (st : Attributes) (df : List Column) : Except UploadError Attributes :=
  match df with
  | [] => .ok st
  | c :: rest =>
      match update_or_append st c with
      | .error e => .error e
      | .ok st2 => update_attributes st2 rest

theorem upload_attribute_dataframe_fields {name key ty : String} {c : Column}
    {p : AttributePatch} (h : upload_attribute_dataframe name key ty c = .ok p) :
    p.name = name ∧ p.key = key ∧ p.attribute_type = ty ∧ p.values = ⟨c.values⟩ := by
  unfold upload_attribute_dataframe at h
  split_ifs at h
  all_goals injection h with h2
  all_goals subst h2
  all_goals exact ⟨rfl, rfl, rfl, rfl⟩

theorem set_attribute_values_keeps {a : Attribute} {c : Column} {a2 : Attribute}
    (h : set_attribute_values a c false = .ok a2) :
    a2.attr.name = a.attr.name ∧ a2.attr.key = some (attrKey a.attr)
      ∧ a2.attr.attribute_type = a.attr.attribute_type
      ∧ a2.attr.values = ⟨c.values⟩ ∧ a2.loader = none := by
  unfold set_attribute_values at h
  split at h
  · exact absurd h (by simp)
  · rename_i ty hty
    split at h
    · exact absurd h (by simp)
    · rename_i patch hup
      have hty2 : a.attr.attribute_type = ty := by simpa using hty
      subst hty2
      obtain ⟨hn, hk, ht, hv⟩ := upload_attribute_dataframe_fields hup
      cases h
      simp [updateAttribute, hn, hk, ht, hv]

theorem set_attribute_values_drops_loader {a : Attribute} {c : Column} {infer : Bool}
    {a2 : Attribute} (h : set_attribute_values a c infer = .ok a2) : a2.loader = none := by
  unfold set_attribute_values at h
  split at h
  · exact absurd h (by simp)
  · split at h
    · exact absurd h (by simp)
    · cases h; rfl

theorem update_in_list_none_iff (attrs : List Attribute) (c : Column) :
    update_in_list attrs c = none ↔ ∀ a ∈ attrs, a.attr.name ≠ c.name := by
  induction attrs with
  | nil => simp [update_in_list]
  | cons a rest ih =>
      by_cases ha : a.attr.name = c.name
      · simp [update_in_list, ha]
      · simp [update_in_list, ha, ih]

theorem update_in_list_first (pre : List Attribute) (a : Attribute) (post : List Attribute)
    (c : Column) (hpre : ∀ b ∈ pre, b.attr.name ≠ c.name) (ha : a.attr.name = c.name) :
    update_in_list (pre ++ a :: post) c
      = some ((set_attribute_values a c false).map (fun a2 => pre ++ a2 :: post)) := by
  induction pre with
  | nil =>
      cases hE : set_attribute_values a c false <;>
        simp [update_in_list, ha, hE, Except.map]
  | cons b rest ih =>
      have hb : b.attr.name ≠ c.name := hpre b (by simp)
      have ih2 := ih (fun x hx => hpre x (by simp [hx]))
      cases hE : set_attribute_values a c false <;>
        (rw [hE] at ih2; simp [update_in_list, hb, ih2, hE, Except.map])

theorem update_or_append_found {st : Attributes} {c : Column}
    {E : Except UploadError (List Attribute)} (h : update_in_list st.attributes c = some E) :
    update_or_append st c = E.map (fun attrs => ⟨attrs, st.nextKey⟩) := by
  unfold update_or_append
  rw [h]

theorem update_or_append_none {st : Attributes} {c : Column}
    (h : update_in_list st.attributes c = none) :
    update_or_append st c = append_attribute st c := by
  unfold update_or_append
  rw [h]

/-- C7: in `update_attributes`, (i) a frame column whose name matches an
existing record — the first such record — replaces that record's values
in place, leaving every record before and after it untouched; (ii) the
in-place update preserves the record's key and attribute_type and stores
the uploaded values; (iii) a column with no matching record is appended
as a new record carrying a freshly generated key (and no loader), with
the key counter advanced; (iv) concretely, appending a column named
"grade" and then update-or-appending a different-valued "grade" column
leaves exactly one record carrying the original generated key, with the
new values and the old attribute type. -/
theorem update_attributes_behaviour :
    (∀ (st : Attributes) (pre post : List Attribute) (a : Attribute) (c : Column),
       st.attributes = pre ++ a :: post →
       (∀ b ∈ pre, b.attr.name ≠ c.name) →
       a.attr.name = c.name →
       update_or_append st c
         = (set_attribute_values a c false).map (fun a2 => ⟨pre ++ a2 :: post, st.nextKey⟩))
    ∧ (∀ (a : Attribute) (c : Column) (a2 : Attribute),
       set_attribute_values a c false = .ok a2 →
       a2.attr.name = a.attr.name ∧ a2.attr.key = some (attrKey a.attr)
         ∧ a2.attr.attribute_type = a.attr.attribute_type
         ∧ a2.attr.values = ⟨c.values⟩)
    ∧ (∀ (st : Attributes) (c : Column) (st2 : Attributes),
       (∀ b ∈ st.attributes, b.attr.name ≠ c.name) →
       update_or_append st c = .ok st2 →
       ∃ rec, st2.attributes = st.attributes ++ [rec]
         ∧ rec.attr.name = c.name ∧ rec.attr.key = some (genKey st.nextKey)
         ∧ rec.loader = none ∧ st2.nextKey = st.nextKey + 1)
    ∧ append_attribute ⟨[], 0⟩ ⟨"grade", .floating, [.int 1, .int 2]⟩
        = .ok ⟨[⟨⟨"grade", some (genKey 0), "scalar", ⟨[.int 1, .int 2]⟩, none, some []⟩, none⟩], 1⟩
    ∧ update_attributes
        ⟨[⟨⟨"grade", some (genKey 0), "scalar", ⟨[.int 1, .int 2]⟩, none, some []⟩, none⟩], 1⟩
        [⟨"grade", .floating, [.int 3, .int 4]⟩]
        = .ok ⟨[⟨⟨"grade", some (genKey 0), "scalar", ⟨[.int 3, .int 4]⟩, none, some []⟩, none⟩], 1⟩
    ∧ List.countP (fun a => attrKey a.attr = genKey 0)
        [(⟨⟨"grade", some (genKey 0), "scalar", ⟨[.int 3, .int 4]⟩, none, some []⟩, none⟩ : Attribute)]
        = 1 := by
  refine ⟨?_, ?_, ?_, rfl, rfl, rfl⟩
  · intro st pre post a c hattrs hpre ha
    rw [update_or_append_found (by rw [hattrs]; exact update_in_list_first pre a post c hpre ha)]
    cases hE : set_attribute_values a c false <;> simp [hE, Except.map]
  · intro a c a2 h
    obtain ⟨h1, h2, h3, h4, _⟩ := set_attribute_values_keeps h
    exact ⟨h1, h2, h3, h4⟩
  · intro st c st2 hnone h
    rw [update_or_append_none ((update_in_list_none_iff st.attributes c).mpr hnone)] at h
    unfold append_attribute at h
    split at h
    · exact absurd h (by simp)
    · split at h
      · exact absurd h (by simp)
      · rename_i patch hup
        obtain ⟨hn, hk, _, _⟩ := upload_attribute_dataframe_fields hup
        cases h
        exact ⟨⟨attributeOfPatch patch, none⟩, rfl, by simp [attributeOfPatch, hn],
          by simp [attributeOfPatch, hk], rfl, rfl⟩

/-- Witness for C7 at concrete inputs: the update conjunct applied to a
one-record collection holding "grade", the preservation conjunct applied
to the resulting concrete update, and the append conjunct applied to the
empty collection. -/
theorem update_attributes_behaviour_witness :
    ((⟨[⟨⟨"grade", some (genKey 0), "scalar", ⟨[.int 1, .int 2]⟩, none, some []⟩, none⟩], 1⟩
        : Attributes).attributes
        = [] ++ (⟨⟨"grade", some (genKey 0), "scalar", ⟨[.int 1, .int 2]⟩, none, some []⟩,
            none⟩ : Attribute) :: []
      ∧ update_or_append
          ⟨[⟨⟨"grade", some (genKey 0), "scalar", ⟨[.int 1, .int 2]⟩, none, some []⟩, none⟩], 1⟩
          ⟨"grade", .floating, [.int 3, .int 4]⟩
        = (set_attribute_values
            ⟨⟨"grade", some (genKey 0), "scalar", ⟨[.int 1, .int 2]⟩, none, some []⟩, none⟩
            ⟨"grade", .floating, [.int 3, .int 4]⟩ false).map
            (fun a2 => ⟨[] ++ a2 :: [], 1⟩))
    ∧ (set_attribute_values
          ⟨⟨"grade", some (genKey 0), "scalar", ⟨[.int 1, .int 2]⟩, none, some []⟩, none⟩
          ⟨"grade", .floating, [.int 3, .int 4]⟩ false
        = .ok ⟨⟨"grade", some (genKey 0), "scalar", ⟨[.int 3, .int 4]⟩, none, some []⟩, none⟩
      ∧ (⟨⟨"grade", some (genKey 0), "scalar", ⟨[.int 3, .int 4]⟩, none, some []⟩,
          none⟩ : Attribute).attr.key
        = some (attrKey (⟨⟨"grade", some (genKey 0), "scalar", ⟨[.int 1, .int 2]⟩, none,
            some []⟩, none⟩ : Attribute).attr))
    ∧ (∃ rec,
        (⟨[⟨attributeOfPatch ⟨"grade", genKey 0, "scalar", ⟨[.int 1, .int 2]⟩, none, some []⟩,
            none⟩], 1⟩ : Attributes).attributes
          = (⟨[], 0⟩ : Attributes).attributes ++ [rec]
        ∧ rec.attr.name = "grade" ∧ rec.attr.key = some (genKey 0)
        ∧ rec.loader = none ∧ (1 : Nat) = 0 + 1) := by
  refine ⟨⟨rfl, ?_⟩, ⟨rfl, ?_⟩, ?_⟩
  · exact update_attributes_behaviour.1
      ⟨[⟨⟨"grade", some (genKey 0), "scalar", ⟨[.int 1, .int 2]⟩, none, some []⟩, none⟩], 1⟩
      [] []
      ⟨⟨"grade", some (genKey 0), "scalar", ⟨[.int 1, .int 2]⟩, none, some []⟩, none⟩
      ⟨"grade", .floating, [.int 3, .int 4]⟩ rfl (by simp) rfl
  · exact (update_attributes_behaviour.2.1
      ⟨⟨"grade", some (genKey 0), "scalar", ⟨[.int 1, .int 2]⟩, none, some []⟩, none⟩
      ⟨"grade", .floating, [.int 3, .int 4]⟩
      ⟨⟨"grade", some (genKey 0), "scalar", ⟨[.int 3, .int 4]⟩, none, some []⟩, none⟩ rfl).2.1
  · exact update_attributes_behaviour.2.2.1 ⟨[], 0⟩ ⟨"grade", .floating, [.int 1, .int 2]⟩
      ⟨[⟨attributeOfPatch ⟨"grade", genKey 0, "scalar", ⟨[.int 1, .int 2]⟩, none, some []⟩,
          none⟩], 1⟩
      (by simp) rfl

/-- The claim-relevant state of a `ValuesStore`: whether it still holds
the `DownloadedObject` its loaders were built from (`self._obj`).  The
document, adapters, loaders and uploaders are not needed by the claim. -/
structure ValuesStore where
  obj : Option Unit
  deriving DecidableEq

/-- Model of the success path of `ValuesStore.set_dataframe`: after the
uploads the reference to the object is cleared (`self._obj = None`),
because the previously downloaded tables are now stale. -/
def ValuesStore.set_dataframe (_ : ValuesStore) : ValuesStore := ⟨none⟩

/-- Model of the guard of `ValuesStore.as_dataframe`: without an object
there is nothing to download from and the read raises ValueError. -/
def ValuesStore.as_dataframe (s : ValuesStore) : Except ReadError Unit :=
  match s.obj with
  | some o => .ok o
  | none => .error .noObject

/-- The mutating operations available on one `Attribute` object after
construction: renaming (the name setter) and replacing the values. -/
inductive AttrOp where
  | set_name (s : String)
  | set_values (c : Column) (infer : Bool)

/-- Apply one operation to an attribute object.  A failed values write
raises before any state is changed, so the object is unchanged then. -/
def Attribute.applyOp (a : Attribute) (op : AttrOp) : Attribute :=
  match op with
  | .set_name s => ⟨{ a.attr with name := s }, a.loader⟩
  | .set_values c infer =>
      match set_attribute_values a c infer with
      | .ok a2 => a2
      | .error _ => a

/-- Apply a sequence of operations to an attribute object. -/
def Attribute.applyOps (a : Attribute) (ops : List AttrOp) : Attribute :=
  ops.foldl Attribute.applyOp a

/-- The mutating operations on a `ValuesStore` (only `set_dataframe`
changes the object reference). -/
inductive StoreOp where
  | set_df

/-- Apply a sequence of store operations. -/
def ValuesStore.applyOps (s : ValuesStore) (ops : List StoreOp) : ValuesStore :=
  ops.foldl (fun s2 _ => s2.set_dataframe) s

theorem applyOp_loader_none {a : Attribute} (op : AttrOp) (h : a.loader = none) :
    (a.applyOp op).loader = none := by
  cases op with
  | set_name s => simpa [Attribute.applyOp] using h
  | set_values c infer =>
      simp only [Attribute.applyOp]
      split
      · rename_i a2 hE
        exact set_attribute_values_drops_loader hE
      · exact h

theorem applyOps_loader_none {a : Attribute} (ops : List AttrOp) (h : a.loader = none) :
    (a.applyOps ops).loader = none := by
  induction ops generalizing a with
  | nil => simpa [Attribute.applyOps] using h
  | cons op rest ih =>
      have : Attribute.applyOps a (op :: rest) = Attribute.applyOps (a.applyOp op) rest := rfl
      rw [this]
      exact ih (applyOp_loader_none op h)

theorem as_dataframe_of_loader_none {a : Attribute} (h : a.loader = none) :
    a.as_dataframe = .error .noLoader := by
  unfold Attribute.as_dataframe
  rw [h]

theorem storeApplyOps_obj_none {s : ValuesStore} (ops : List StoreOp) (h : s.obj = none) :
    (s.applyOps ops).obj = none := by
  induction ops generalizing s with
  | nil => simpa [ValuesStore.applyOps] using h
  | cons op rest ih =>
      have : ValuesStore.applyOps s (op :: rest)
          = ValuesStore.applyOps (s.set_dataframe) rest := rfl
      rw [this]
      exact ih rfl

/-- C10: (i) once a values write on an attribute object has succeeded,
the object's loader is gone and stays gone under any further sequence of
operations, so every subsequent read through the same object fails
(instead of returning the loader's superseded snapshot); (ii) after a
successful values-store write, reading the store fails under any further
sequence of operations rather than re-downloading the old tables;
(iii) an attribute freshly appended in memory carries no loader, so it
cannot be read back through the collection. -/
theorem stale_reads_fail :
    (∀ (a : Attribute) (c : Column) (infer : Bool) (a2 : Attribute) (ops : List AttrOp),
       set_attribute_values a c infer = .ok a2 →
       (a2.applyOps ops).loader = none
         ∧ (a2.applyOps ops).as_dataframe = .error .noLoader)
    ∧ (∀ (s : ValuesStore) (ops : List StoreOp),
       (s.set_dataframe.applyOps ops).as_dataframe = .error .noObject)
    ∧ (∀ (st : Attributes) (c : Column) (st2 : Attributes),
       append_attribute st c = .ok st2 →
       ∃ rec, st2.attributes = st.attributes ++ [rec]
         ∧ rec.loader = none ∧ rec.as_dataframe = .error .noLoader) := by
  refine ⟨?_, ?_, ?_⟩
  · intro a c infer a2 ops h
    have h0 : a2.loader = none := set_attribute_values_drops_loader h
    have h1 : (a2.applyOps ops).loader = none := applyOps_loader_none ops h0
    exact ⟨h1, as_dataframe_of_loader_none h1⟩
  · intro s ops
    have h1 : (s.set_dataframe.applyOps ops).obj = none := storeApplyOps_obj_none ops rfl
    unfold ValuesStore.as_dataframe
    rw [h1]
  · intro st c st2 h
    unfold append_attribute at h
    split at h
    · exact absurd h (by simp)
    · split at h
      · exact absurd h (by simp)
      · rename_i patch hup
        cases h
        exact ⟨⟨attributeOfPatch patch, none⟩, rfl, rfl, rfl⟩

/-- Witness for C10 at concrete inputs: a successful concrete values
write followed by a rename still cannot be read; a written store cannot
be read; a freshly appended attribute cannot be read. -/
theorem stale_reads_fail_witness :
    (set_attribute_values
        ⟨⟨"grade", some "k1", "scalar", ⟨[.int 1]⟩, none, some []⟩,
          some ⟨"grade", some "k1", "scalar", ⟨[.int 1]⟩, none, some []⟩⟩
        ⟨"grade", .floating, [.int 2]⟩ false
      = .ok ⟨⟨"grade", some "k1", "scalar", ⟨[.int 2]⟩, none, some []⟩, none⟩
     ∧ ((⟨⟨"grade", some "k1", "scalar", ⟨[.int 2]⟩, none, some []⟩,
          none⟩ : Attribute).applyOps [.set_name "g2"]).loader = none
     ∧ ((⟨⟨"grade", some "k1", "scalar", ⟨[.int 2]⟩, none, some []⟩,
          none⟩ : Attribute).applyOps [.set_name "g2"]).as_dataframe = .error .noLoader)
    ∧ ((⟨some ()⟩ : ValuesStore).set_dataframe.applyOps []).as_dataframe = .error .noObject
    ∧ (append_attribute ⟨[], 0⟩ ⟨"grade", .floating, [.int 1]⟩
        = .ok ⟨[⟨⟨"grade", some (genKey 0), "scalar", ⟨[.int 1]⟩, none, some []⟩, none⟩], 1⟩
      ∧ ∃ rec,
        (⟨[⟨⟨"grade", some (genKey 0), "scalar", ⟨[.int 1]⟩, none, some []⟩, none⟩], 1⟩
            : Attributes).attributes
          = (⟨[], 0⟩ : Attributes).attributes ++ [rec]
        ∧ rec.loader = none ∧ rec.as_dataframe = .error .noLoader) := by
  refine ⟨⟨rfl, ?_, ?_⟩, ?_, rfl, ?_⟩
  · exact (stale_reads_fail.1
      ⟨⟨"grade", some "k1", "scalar", ⟨[.int 1]⟩, none, some []⟩,
        some ⟨"grade", some "k1", "scalar", ⟨[.int 1]⟩, none, some []⟩⟩
      ⟨"grade", .floating, [.int 2]⟩ false
      ⟨⟨"grade", some "k1", "scalar", ⟨[.int 2]⟩, none, some []⟩, none⟩
      [.set_name "g2"] rfl).1
  · exact (stale_reads_fail.1
      ⟨⟨"grade", some "k1", "scalar", ⟨[.int 1]⟩, none, some []⟩,
        some ⟨"grade", some "k1", "scalar", ⟨[.int 1]⟩, none, some []⟩⟩
      ⟨"grade", .floating, [.int 2]⟩ false
      ⟨⟨"grade", some "k1", "scalar", ⟨[.int 2]⟩, none, some []⟩, none⟩
      [.set_name "g2"] rfl).2
  · exact stale_reads_fail.2.1 ⟨some ()⟩ []
  · exact stale_reads_fail.2.2 ⟨[], 0⟩ ⟨"grade", .floating, [.int 1]⟩
      ⟨[⟨⟨"grade", some (genKey 0), "scalar", ⟨[.int 1]⟩, none, some []⟩, none⟩], 1⟩ rfl

end Attrs

namespace Store

/-- The claim-relevant state of a `Dataset`: the configured value column
names (`self.values.column_names`, the concatenation of the value
adapters' declared names) and whether an attributes adapter is
configured (`self.attributes is not None`). -/
structure Dataset where
  value_column_names : List String
  has_attributes : Bool
  deriving DecidableEq

/-- The error `Dataset.set_dataframe` can raise (ValueError in Python). -/
inductive SetError where
  | noAttributeBindingConfigured
  deriving DecidableEq

/-- The outcome of `Dataset.set_dataframe` on a frame with the given
column names: the columns routed to the values store, the leftover
columns destined for the attributes collection, and the error, if any. -/
structure SetOutcome where
  value_columns : List String
  attribute_columns : List String
  error : Option SetError
  deriving DecidableEq

/-- Model of `Dataset.set_dataframe`: partition the frame's columns into
those whose names are configured value column names (uploaded through
the values store) and the rest; when no attributes adapter is configured
and leftover columns exist, raise; otherwise the leftover columns go to
the attributes collection. -/
def Dataset.set_dataframe (ds : Dataset) (columns : List String) : SetOutcome :=
  let value_columns := columns.filter (fun c => c ∈ ds.value_column_names)
  let attribute_columns := columns.filter (fun c => c ∉ ds.value_column_names)
  if ds.has_attributes = false then
    if attribute_columns ≠ [] then
      ⟨value_columns, attribute_columns, some .noAttributeBindingConfigured⟩
    else ⟨value_columns, attribute_columns, none⟩
  else ⟨value_columns, attribute_columns, none⟩

/-- C8: the columns of the frame are partitioned by membership in the
configured value column names — each column is routed to the field
bindings exactly when its name is configured and to the attribute
binding otherwise — and the write fails with
NoAttributeBindingConfigured exactly when at least one leftover column
exists while no attribute binding is configured; in particular a frame
whose columns are all configured value columns never triggers that
error. -/
theorem set_dataframe_partition :
    (∀ (ds : Dataset) (columns : List String),
       (ds.set_dataframe columns).error = some .noAttributeBindingConfigured
         ↔ (columns.filter (fun c => c ∉ ds.value_column_names) ≠ []
             ∧ ds.has_attributes = false))
    ∧ (∀ (ds : Dataset) (columns : List String),
       (∀ c ∈ columns, c ∈ ds.value_column_names) →
       (ds.set_dataframe columns).error = none)
    ∧ (∀ (ds : Dataset) (columns : List String) (c : String), c ∈ columns →
       (c ∈ (ds.set_dataframe columns).value_columns ↔ c ∈ ds.value_column_names)
         ∧ (c ∈ (ds.set_dataframe columns).attribute_columns ↔ c ∉ ds.value_column_names)) := by
  refine ⟨?_, ?_, ?_⟩
  · intro ds columns
    unfold Dataset.set_dataframe
    by_cases hA : ds.has_attributes = false
    · by_cases hc : columns.filter (fun c => c ∉ ds.value_column_names) ≠ []
      · rw [if_pos hA, if_pos hc]
        exact ⟨fun _ => ⟨hc, hA⟩, fun _ => rfl⟩
      · rw [if_pos hA, if_neg hc]
        constructor
        · intro h; exact absurd h (by simp)
        · intro h; exact absurd h.1 hc
    · rw [if_neg hA]
      constructor
      · intro h; exact absurd h (by simp)
      · intro h; exact absurd h.2 hA
  · intro ds columns hall
    have hempty : columns.filter (fun c => c ∉ ds.value_column_names) = [] := by
      rw [List.filter_eq_nil_iff]
      intro c hcm
      simpa using hall c hcm
    unfold Dataset.set_dataframe
    by_cases hA : ds.has_attributes = false
    · rw [if_pos hA, if_neg (fun hne => hne hempty)]
    · rw [if_neg hA]
  · intro ds columns c hc
    have hv : (ds.set_dataframe columns).value_columns
        = columns.filter (fun c => c ∈ ds.value_column_names) := by
      unfold Dataset.set_dataframe
      dsimp only
      split_ifs <;> rfl
    have ha2 : (ds.set_dataframe columns).attribute_columns
        = columns.filter (fun c => c ∉ ds.value_column_names) := by
      unfold Dataset.set_dataframe
      dsimp only
      split_ifs <;> rfl
    refine ⟨?_, ?_⟩
    · rw [hv]
      simp [List.mem_filter, hc]
    · rw [ha2]
      simp [List.mem_filter, hc]

/-- Witness for C8 at concrete inputs: a frame with one configured value
column never errs, and the routing conjunct evaluated at that column. -/
theorem set_dataframe_partition_witness :
    ((∀ c ∈ ["x"], c ∈ (⟨["x"], false⟩ : Dataset).value_column_names)
      ∧ ((⟨["x"], false⟩ : Dataset).set_dataframe ["x"]).error = none)
    ∧ ("x" ∈ ["x"]
      ∧ ("x" ∈ ((⟨["x"], false⟩ : Dataset).set_dataframe ["x"]).value_columns
          ↔ "x" ∈ (⟨["x"], false⟩ : Dataset).value_column_names)
      ∧ ("x" ∈ ((⟨["x"], false⟩ : Dataset).set_dataframe ["x"]).attribute_columns
          ↔ "x" ∉ (⟨["x"], false⟩ : Dataset).value_column_names)) := by
  refine ⟨⟨?_, ?_⟩, ?_, ?_, ?_⟩
  · intro c hcm
    simpa using hcm
  · exact set_dataframe_partition.2.1 ⟨["x"], false⟩ ["x"] (by intro c hcm; simpa using hcm)
  · simp
  · exact (set_dataframe_partition.2.2 ⟨["x"], false⟩ ["x"] "x" (by simp)).1
  · exact (set_dataframe_partition.2.2 ⟨["x"], false⟩ ["x"] "x" (by simp)).2

end Store

namespace Typed

open JP

/-- Python `del d[key]`, removing the binding for a key (on Python dicts
keys are unique; this removes every matching binding of the association
list, which coincides on duplicate-free lists). -/
def eraseKey : List (String × JVal) → String → List (String × JVal)
  | [], _ => []
  | (k2, v) :: rest, key =>
      if k2 = key then eraseKey rest key else (k2, v) :: eraseKey rest key

/-- Modelled from the spec: `delete_jmespath_value` for a field-chain
expression (the helper lives in the evo-sdk-common `_utils` module, which
is not under src/): remove the field at the end of the chain if the whole
chain is present, and do nothing if it is absent (spec section 4.1:
"removes the field if present; no-op if absent"). -/
def delete_jmespath_value (k : String) (ks : List String) (doc : JVal) : JVal :=
  match doc with
  | .obj fs =>
      match ks with
      | [] => .obj (eraseKey fs k)
      | k2 :: rest =>
          match getKey fs k with
          | some child => .obj (setKey fs k (delete_jmespath_value k2 rest child))
          | none => .obj fs
  | v => v

/-- Modelled from the spec: `assign_jmespath_value` (also in the missing
`_utils` module) compiles the expression and calls `ParsedResult.assign`;
for the field-chain expressions schema properties use, that is the
assignment engine embedded above. -/
def assign_jmespath_value (doc : JVal) (k : String) (ks : List String) (value : JVal) :
    JVal × Option AErr :=
  assignNode (fieldChain k ks) doc value

/-- Model of `_set_property_value`: dump the value through the property's
declared type (pydantic `TypeAdapter.dump_python`, abstracted as the
`dump` parameter, which returns `none` exactly when the dumped value is
Python None), then delete the property's path when the dumped value is
None, and assign the dumped value at the path otherwise. -/
def set_property_value {α : Type} (dump : α → Option JVal) (k : String) (ks : List String)
    (doc : JVal) (value : α) : JVal × Option AErr :=
  match dump value with
  | none => (delete_jmespath_value k ks doc, none)
  | some dumped_value => assign_jmespath_value doc k ks dumped_value

/-- Reading a field chain from a document: the value at the end of the
chain, or `none` when any step is absent or meets a non-map. -/
def lookupChain (k : String) (ks : List String) (doc : JVal) : Option JVal :=
  match doc with
  | .obj fs =>
      match getKey fs k with
      | some child =>
          match ks with
          | [] => some child
          | k2 :: rest => lookupChain k2 rest child
      | none => none
  | _ => none

theorem getKey_setKey_eq (fs : List (String × JVal)) (k : String) (v : JVal) :
    getKey (setKey fs k v) k = some v := by
  induction fs with
  | nil => simp [setKey, getKey]
  | cons p rest ih =>
      by_cases hp : p.1 = k
      · simp [setKey, getKey, hp]
      · simp [setKey, getKey, hp, ih]

theorem setKey_self {fs : List (String × JVal)} {k : String} {c : JVal}
    (h : getKey fs k = some c) : setKey fs k c = fs := by
  induction fs with
  | nil => simp [getKey] at h
  | cons p rest ih =>
      obtain ⟨pk, pv⟩ := p
      by_cases hp : pk = k
      · subst hp
        simp [getKey] at h
        simp [setKey, h]
      · simp [getKey, hp] at h
        simp [setKey, hp, ih h]

theorem getKey_eraseKey (fs : List (String × JVal)) (k : String) :
    getKey (eraseKey fs k) k = none := by
  induction fs with
  | nil => simp [eraseKey, getKey]
  | cons p rest ih =>
      obtain ⟨pk, pv⟩ := p
      by_cases hp : pk = k
      · simp [eraseKey, hp, ih]
      · simp [eraseKey, getKey, hp, ih]

theorem eraseKey_self {fs : List (String × JVal)} {k : String}
    (h : getKey fs k = none) : eraseKey fs k = fs := by
  induction fs with
  | nil => rfl
  | cons p rest ih =>
      obtain ⟨pk, pv⟩ := p
      by_cases hp : pk = k
      · simp [getKey, hp] at h
      · simp [getKey, hp] at h
        simp [eraseKey, hp, ih h]

theorem lookupChain_delete (ks : List String) : ∀ (k : String) (doc : JVal),
    lookupChain k ks (delete_jmespath_value k ks doc) = none := by
  induction ks with
  | nil =>
      intro k doc
      cases doc with
      | obj fs => simp [delete_jmespath_value, lookupChain, getKey_eraseKey]
      | null => rfl
      | boolean b => rfl
      | int n => rfl
      | str s => rfl
      | arr items => rfl
  | cons k2 rest ih =>
      intro k doc
      cases doc with
      | obj fs =>
          cases hg : getKey fs k with
          | none => simp [delete_jmespath_value, lookupChain, hg]
          | some child =>
              simp [delete_jmespath_value, lookupChain, hg, getKey_setKey_eq, ih]
      | null => rfl
      | boolean b => rfl
      | int n => rfl
      | str s => rfl
      | arr items => rfl

theorem delete_of_absent (ks : List String) : ∀ (k : String) (doc : JVal),
    lookupChain k ks doc = none → delete_jmespath_value k ks doc = doc := by
  induction ks with
  | nil =>
      intro k doc h
      cases doc with
      | obj fs =>
          cases hg : getKey fs k with
          | none => simp [delete_jmespath_value, eraseKey_self hg]
          | some child => simp [lookupChain, hg] at h
      | null => rfl
      | boolean b => rfl
      | int n => rfl
      | str s => rfl
      | arr items => rfl
  | cons k2 rest ih =>
      intro k doc h
      cases doc with
      | obj fs =>
          cases hg : getKey fs k with
          | none => simp [delete_jmespath_value, hg]
          | some child =>
              have h2 : lookupChain k2 rest child = none := by
                simpa [lookupChain, hg] using h
              simp [delete_jmespath_value, hg, ih k2 child h2, setKey_self hg]
      | null => rfl
      | boolean b => rfl
      | int n => rfl
      | str s => rfl
      | arr items => rfl

/-- C9: writing a scalar schema property first converts the value through
the property's declared type, then (i) when the converted value is the
absent representation (None), the property's path is deleted from the
document — and no null is written: the path is absent from the resulting
document; (ii) a document in which the path is already absent is left
unchanged by such a write; (iii) otherwise the converted value is
assigned at the path by the assignment engine. -/
theorem set_property_value_behaviour :
    (∀ (α : Type) (dump : α → Option JVal) (k : String) (ks : List String)
        (doc : JVal) (v : α),
       dump v = none →
       set_property_value dump k ks doc v = (delete_jmespath_value k ks doc, none)
         ∧ lookupChain k ks (delete_jmespath_value k ks doc) = none)
    ∧ (∀ (α : Type) (dump : α → Option JVal) (k : String) (ks : List String)
        (doc : JVal) (v : α),
       dump v = none → lookupChain k ks doc = none →
       set_property_value dump k ks doc v = (doc, none))
    ∧ (∀ (α : Type) (dump : α → Option JVal) (k : String) (ks : List String)
        (doc : JVal) (v : α) (dv : JVal),
       dump v = some dv →
       set_property_value dump k ks doc v = assignNode (fieldChain k ks) doc dv) := by
  refine ⟨?_, ?_, ?_⟩
  · intro α dump k ks doc v h
    refine ⟨?_, lookupChain_delete ks k doc⟩
    unfold set_property_value
    rw [h]
  · intro α dump k ks doc v h habs
    unfold set_property_value
    rw [h, delete_of_absent ks k doc habs]
  · intro α dump k ks doc v dv h
    unfold set_property_value
    rw [h]
    rfl

/-- Witness for C9 at concrete inputs: a dump that yields None deletes
the path (leaving the sibling key) and leaves a path-free document
unchanged; a dump that yields 7 assigns it. -/
theorem set_property_value_behaviour_witness :
    ((fun _ => (none : Option JVal)) () = none
      ∧ set_property_value (fun _ => none) "a" [] (.obj [("a", .int 1), ("b", .int 2)]) ()
          = (delete_jmespath_value "a" [] (.obj [("a", .int 1), ("b", .int 2)]), none)
      ∧ lookupChain "a" []
          (delete_jmespath_value "a" [] (.obj [("a", .int 1), ("b", .int 2)])) = none)
    ∧ (lookupChain "a" [] (.obj [("b", .int 2)]) = none
      ∧ set_property_value (fun _ => (none : Option JVal)) "a" [] (.obj [("b", .int 2)]) ()
          = (.obj [("b", .int 2)], none))
    ∧ ((fun _ => some (JVal.int 7)) () = some (JVal.int 7)
      ∧ set_property_value (fun _ => some (JVal.int 7)) "a" [] (.obj []) ()
          = assignNode (fieldChain "a" []) (.obj []) (.int 7)) := by
  refine ⟨⟨rfl, ?_, ?_⟩, ⟨rfl, ?_⟩, ⟨rfl, ?_⟩⟩
  · exact (set_property_value_behaviour.1 Unit (fun _ => none) "a" []
      (.obj [("a", .int 1), ("b", .int 2)]) () rfl).1
  · exact (set_property_value_behaviour.1 Unit (fun _ => none) "a" []
      (.obj [("a", .int 1), ("b", .int 2)]) () rfl).2
  · exact set_property_value_behaviour.2.1 Unit (fun _ => none) "a" []
      (.obj [("b", .int 2)]) () rfl rfl
  · exact set_property_value_behaviour.2.2 Unit (fun _ => some (JVal.int 7)) "a" []
      (.obj []) () (.int 7) rfl

end Typed

end EvoSpec
